import Mathlib

/-!
# Verification of the netsync block synchronization manager (mit-dci/utcd)

Shallow embedding of the sync manager (the `SyncManager` of the `netsync`
package) and of the parts of its collaborators that the verified claims
depend on.  Go maps keyed by hashes are modelled as `Finset Nat`; the
peer-state registry is an association list keyed by peer id; external
collaborators (chain engine, mempool, peer layer) are read-only oracles
bundled in `Env`, with the per-call results of mutating collaborator
calls (`ProcessBlock`, `ProcessTransaction`, `ProcessHeaderUBlock`)
passed as explicit outcome records.  Side effects on collaborators
(disconnects, outbound protocol messages, reports, panics) are collected
in an `Effect` list in program order.  `int32` heights are modelled as
`Int`, timestamps as `Nat` seconds.
-/

namespace Netsync

/-- Block/tx hashes (`chainhash.Hash`) are abstracted as naturals. -/
abbrev Hash := Nat

/-- `zeroHash` is the zero value hash. -/
def zeroHash : Hash := 0

/-- Peers are identified by their id; the peer object's fields live in `Env`. -/
abbrev PeerId := Nat

/-- `minInFlightBlocks`: minimum number of in-flight blocks in headers-first
mode before requesting more. -/
def minInFlightBlocks : Nat := 10

/-- `maxRejectedTxns`: maximum number of rejected transaction hashes kept. -/
def maxRejectedTxns : Nat := 1000

/-- `wire.MaxInvPerMsg`: maximum inventory vectors in a single message. -/
def maxInvPerMsg : Nat := 50000

/-- `maxRequestedBlocks = wire.MaxInvPerMsg`. -/
def maxRequestedBlocks : Nat := maxInvPerMsg

/-- `maxRequestedTxns = wire.MaxInvPerMsg`. -/
def maxRequestedTxns : Nat := maxInvPerMsg

/-- `maxStallDuration = 3 * time.Minute`, in seconds. -/
def maxStallDuration : Nat := 180

/-- `limitAdd` evicts one entry when inserting would overflow `limit`, then
inserts.  The Go code deletes the first key produced by map iteration,
an arbitrary element of the map; `victim` makes that arbitrary choice an
explicit argument.  (When the map is empty the Go `range` loop body never
runs; correspondingly `Finset.erase` on the empty set is a no-op.) -/
def limitAdd (victim : Hash) (m : Finset Hash) (hash : Hash) (limit : Nat) : Finset Hash :=
  let m' := if m.card + 1 > limit then m.erase victim else m
  insert hash m'

/-- A victim choice is consistent with Go's map iteration when it is an
element of the map whenever the eviction branch runs on a non-empty map. -/
def StepOk (limit : Nat) (m : Finset Hash) (victim : Hash) : Prop :=
  m.card + 1 > limit → victim ∈ m ∨ m = ∅

instance (limit : Nat) (m : Finset Hash) (victim : Hash) : Decidable (StepOk limit m victim) :=
  inferInstanceAs (Decidable (m.card + 1 > limit → victim ∈ m ∨ m = ∅))

/-- A sequence of `limitAdd` calls; each element of `trace` carries the
victim choice and the inserted hash for one call. -/
def limitAddSeq (limit : Nat) : Finset Hash → List (Hash × Hash) → Finset Hash
  | m, [] => m
  | m, (v, h) :: rest => limitAddSeq limit (limitAdd v m h limit) rest

/-- All victim choices along a trace are consistent (`StepOk`) with the
intermediate maps. -/
def ValidTrace (limit : Nat) : Finset Hash → List (Hash × Hash) → Prop
  | _, [] => True
  | m, (v, h) :: rest => StepOk limit m v ∧ ValidTrace limit (limitAdd v m h limit) rest

instance ValidTrace.instDecidable (limit : Nat) :
    ∀ (m : Finset Hash) (tr : List (Hash × Hash)), Decidable (ValidTrace limit m tr)
  | _, [] => isTrue trivial
  | m, (v, h) :: rest =>
    have : Decidable (ValidTrace limit (limitAdd v m h limit) rest) :=
      ValidTrace.instDecidable limit (limitAdd v m h limit) rest
    inferInstanceAs
      (Decidable (StepOk limit m v ∧ ValidTrace limit (limitAdd v m h limit) rest))

/-! ## Wire and chain data -/

/-- `wire.InvVect` types the manager distinguishes; `other` stands for any
unsupported inventory type. -/
inductive InvType where
  | block
  | ublock
  | tx
  | witnessBlock
  | witnessUBlock
  | witnessTx
  | other
deriving DecidableEq, Repr

/-- An inventory vector (`wire.InvVect`). -/
structure InvVect where
  ty : InvType
  hash : Hash
deriving DecidableEq, Repr

/-- A hard-coded checkpoint (`chaincfg.Checkpoint`). -/
structure Checkpoint where
  height : Int
  hash : Hash
deriving DecidableEq, Repr

/-- A Utreexo root hint (`chaincfg.UtreexoRootHint`): a height together with
the accumulator roots committing to the UTXO set at that height. -/
structure UtreexoRootHint where
  height : Int
  roots : List Hash
deriving DecidableEq, Repr

/-- `HeaderNode`: a node of the headers-first header list. -/
structure HeaderNode where
  height : Int
  hash : Hash
deriving DecidableEq, Repr

/-- `blockchain.UtreexoViewpoint`, abstracted to its accumulator roots
(the only observation the sync manager makes of it). -/
structure UtreexoViewpoint where
  roots : List Hash
deriving DecidableEq, Repr

/-- `UtreexoViewpoint.Equal`: length check, then element-wise comparison of
the viewpoint's accumulator roots against the passed-in roots. -/
def UtreexoViewpoint.Equal (uview : UtreexoViewpoint) (compRoots : List Hash) : Bool :=
  if uview.roots.length ≠ compRoots.length then false
  else (List.zip compRoots uview.roots).all fun rr => rr.1 == rr.2

/-- `uTreeState`: an in-progress root-hint verification range. -/
structure UTreeState where
  uView : UtreexoViewpoint
  startRoot : Option UtreexoRootHint
  rootToVerify : UtreexoRootHint
deriving DecidableEq, Repr

/-! ## Peer state and manager state -/

/-- `peerSyncState`: what the manager tracks per connected peer. -/
structure PeerSyncState where
  syncCandidate : Bool
  requestQueue : List InvVect
  requestedTxns : Finset Hash
  requestedBlocks : Finset Hash
deriving DecidableEq

/-- The mutable state of `SyncManager` (fields that claims observe; channels,
wait group and the progress logger are omitted, the `shutdown` atomic is a
boolean). -/
structure SMState where
  shutdown : Bool
  rejectedTxns : Finset Hash
  requestedTxns : Finset Hash
  requestedBlocks : Finset Hash
  syncPeer : Option PeerId
  peerStates : List (PeerId × PeerSyncState)
  lastProgressTime : Nat
  headersFirstMode : Bool
  headerList : List HeaderNode
  startHeader : Option Nat
  nextCheckpoint : Option Checkpoint
  utreexoCSN : Bool
  utreexoMN : Bool
  utreexoWN : Bool
  utreexoRootVerifyMode : Bool
  utreexoRootToVerify : Option UtreexoRootHint
  utreexoStartRoot : Option UtreexoRootHint
  newSyncNum : Int
  uTreeMap : List (Int × UTreeState)
deriving DecidableEq

/-- Peer-object attributes read by the manager (`peerpkg.Peer` getters).
They are read-only during a handler; peer-mutating calls are effects. -/
structure PeerInfo where
  lastBlock : Int
  startingHeight : Int
  isWitnessEnabled : Bool
  hasServiceNetwork : Bool
  hasServiceUtreexo : Bool
  isLoopbackAddr : Bool
deriving DecidableEq

/-- Read-only collaborator oracles (chain engine, mempool, peer layer) for
one handler invocation.  `Option` results model Go's `(value, error)`
returns with `none` for an error. -/
structure Env where
  peerInfo : PeerId → PeerInfo
  regressionNet : Bool
  bestHeight : Int
  bestHash : Hash
  chainIsCurrent : Bool
  segwitActive : Option Bool
  latestBlockLocator : Option (List Hash)
  checkpoints : List Checkpoint
  chainHaveBlock : Hash → Option Bool
  chainHaveUBlock : Hash → Option Bool
  txKnown : Hash → Option Bool
  isKnownOrphan : Hash → Bool → Bool
  getOrphanRoot : Hash → Bool → Hash
  blockLocatorFromHash : Hash → List Hash
  blockHeightByHash : Hash → Option Int
  lookupNode : Hash → Option Int
  findPreviousUtreexoRootHint : Int → Option UtreexoRootHint

/-- Reject-message commands used by the manager. -/
inductive RejectCmd where
  | cmdTx
  | cmdBlock
  | cmdUBlock
deriving DecidableEq, Repr

/-- Observable side effects of a handler, in program order: peer-layer calls,
chain/mempool submissions, verification reports, and panics. -/
inductive Effect where
  | disconnect (p : PeerId)
  | pushGetHeaders (p : PeerId) (locator : List Hash) (stop : Hash)
  | pushGetBlocks (p : PeerId) (locator : List Hash) (stop : Hash)
  | pushGetUBlocks (p : PeerId) (locator : List Hash) (stop : Hash)
  | pushReject (p : PeerId) (cmd : RejectCmd) (hash : Hash)
  | queueGetData (p : PeerId) (invs : List InvVect)
  | processBlockCall (hash : Hash) (fastAdd : Bool)
  | processUBlockCall (hash : Hash) (fastAdd : Bool)
  | processHeaderUBlockCall (hash : Hash)
  | processTransactionCall (hash : Hash)
  | announceNewTransactions (txs : List Hash)
  | updatePeerHeights (hash : Hash) (height : Int) (p : PeerId)
  | updateLastBlockHeight (p : PeerId) (height : Int)
  | updateLastAnnouncedBlock (p : PeerId) (hash : Hash)
  | addKnownInventory (p : PeerId) (iv : InvVect)
  | closeNewSyncPeerLatch
  | queueURootHint (hint : UtreexoRootHint)
  | report (validated : Bool) (height : Int)
  | flushCachedState (required : Bool)
  | wgDone
  | panicked
deriving DecidableEq

/-! ## Peer-state registry operations (Go map keyed by `*Peer`) -/

/-- `sm.peerStates[peer]` lookup. -/
def getPeerState (ps : List (PeerId × PeerSyncState)) (p : PeerId) : Option PeerSyncState :=
  match ps with
  | [] => none
  | (q, st) :: rest => if q = p then some st else getPeerState rest p

/-- Replace the entry for `p` (pointer-style in-place update of a peer's
sync state). -/
def setPeerState (ps : List (PeerId × PeerSyncState)) (p : PeerId) (st : PeerSyncState) :
    List (PeerId × PeerSyncState) :=
  ps.map fun q => if q.1 = p then (p, st) else q

/-- `sm.peerStates[peer] = state` (insert or replace). -/
def insertPeerState (ps : List (PeerId × PeerSyncState)) (p : PeerId) (st : PeerSyncState) :
    List (PeerId × PeerSyncState) :=
  if (getPeerState ps p).isSome then setPeerState ps p st else ps ++ [(p, st)]

/-- `delete(sm.peerStates, peer)`. -/
def removePeerState (ps : List (PeerId × PeerSyncState)) (p : PeerId) :
    List (PeerId × PeerSyncState) :=
  ps.filter fun q => !(q.1 == p)

/-! ## Basic manager queries -/

/-- `sm.current()`, parameterized by the chain's `IsCurrent` answer and by the
best-snapshot height, which differ before and after a `ProcessBlock` call.
The sync peer's `LastBlock` is read from `Env` (peer attributes are modelled
as fixed for the duration of one handler). -/
def currentWith (env : Env) (chainIsCur : Bool) (bestH : Int) (s : SMState) : Bool :=
  if !chainIsCur then false
  else
    match s.syncPeer with
    | none => true
    | some p => if bestH < (env.peerInfo p).lastBlock then false else true

/-- `sm.current()` with the pre-handler chain snapshot. -/
def current (env : Env) (s : SMState) : Bool :=
  currentWith env env.chainIsCurrent env.bestHeight s

/-- `sm.haveInventory(invVect)`: chain/mempool knowledge of an inventory
vector; unsupported types claim `true`.  `none` models an error return. -/
def haveInventory (env : Env) (iv : InvVect) : Option Bool :=
  match iv.ty with
  | .witnessBlock | .block => env.chainHaveBlock iv.hash
  | .witnessUBlock | .ublock => env.chainHaveUBlock iv.hash
  | .witnessTx | .tx => env.txKnown iv.hash
  | .other => some true

/-- Inner loop of `findNextHeaderCheckpoint`: walk the checkpoints that
precede the final one from the highest down, keeping the lowest checkpoint
still above `height`. -/
def findNextFrom (height : Int) : List Checkpoint → Checkpoint → Checkpoint
  | [], acc => acc
  | c :: rest, acc => if height ≥ c.height then acc else findNextFrom height rest c

/-- `sm.findNextHeaderCheckpoint(height)`: the next checkpoint strictly after
`height`, or `none` past the final checkpoint or with no checkpoints. -/
def findNextHeaderCheckpoint (checkpoints : List Checkpoint) (height : Int) : Option Checkpoint :=
  match checkpoints.getLast? with
  | none => none
  | some finalCp =>
    if height ≥ finalCp.height then none
    else some (findNextFrom height checkpoints.dropLast.reverse finalCp)

/-- `sm.isSyncCandidate(peer)`. -/
def isSyncCandidate (env : Env) (s : SMState) (p : PeerId) : Bool :=
  if env.regressionNet then (env.peerInfo p).isLoopbackAddr
  else
    let segwitActive := env.segwitActive.getD false
    if s.utreexoCSN then (env.peerInfo p).hasServiceUtreexo
    else
      if !(env.peerInfo p).hasServiceNetwork
          || (segwitActive && !(env.peerInfo p).isWitnessEnabled) then false
      else true

/-- `sm.clearRequestedState(state)`: drop a peer's in-flight tx/block hashes
from the global requested maps (note: the per-peer sets themselves are not
cleared). -/
def clearRequestedState (s : SMState) (st : PeerSyncState) : SMState :=
  { s with
    requestedTxns := s.requestedTxns \ st.requestedTxns,
    requestedBlocks := s.requestedBlocks \ st.requestedBlocks }

/-- `sm.resetHeaderState(newestHash, newestHeight)`. -/
def resetHeaderState (env : Env) (newestHash : Hash) (newestHeight : Int) (s : SMState) :
    SMState :=
  if s.utreexoWN then s
  else
    let s := { s with headersFirstMode := false, headerList := [], startHeader := none }
    let s :=
      if s.nextCheckpoint.isSome then
        { s with headerList := [⟨newestHeight, newestHash⟩] }
      else s
    if s.utreexoMN then { s with headerList := [⟨env.bestHeight, env.bestHash⟩] } else s

/-! ## Peer selection -/

/-- The candidate scan shared verbatim by `startSync` (with the chain tip as
`refHeight`) and `ValidateUtreexoRoot` (with the verification target):
demote candidates whose last block fell strictly below `refHeight`, collect
the rest into `higher`/`equal` pools. -/
def syncPeerScan (env : Env) (segwitActive : Bool) (refHeight : Int) :
    List (PeerId × PeerSyncState) →
      List (PeerId × PeerSyncState) × List PeerId × List PeerId
  | [] => ([], [], [])
  | (p, st) :: rest =>
    let r := syncPeerScan env segwitActive refHeight rest
    if !st.syncCandidate then ((p, st) :: r.1, r.2.1, r.2.2)
    else if segwitActive && !(env.peerInfo p).isWitnessEnabled then
      ((p, st) :: r.1, r.2.1, r.2.2)
    else if (env.peerInfo p).lastBlock < refHeight then
      ((p, { st with syncCandidate := false }) :: r.1, r.2.1, r.2.2)
    else if (env.peerInfo p).lastBlock = refHeight then
      ((p, st) :: r.1, r.2.1, p :: r.2.2)
    else ((p, st) :: r.1, p :: r.2.1, r.2.2)

/-- `rand.Intn` selection from `higher`, falling back to `equal`; `choice`
makes the random draw an explicit argument (reduced modulo the pool size, so
every value a `rand.Intn(len)` call can return is covered). -/
def pickBestPeer (choice : Nat) (higher equal : List PeerId) : Option PeerId :=
  match higher with
  | _ :: _ => higher[choice % higher.length]?
  | [] =>
    match equal with
    | _ :: _ => equal[choice % equal.length]?
    | [] => none

/-! ## Root-verify request dispatch -/

/-- Loop of `fetchHeaderVerifyUBlocks` over the header-list suffix starting at
the cursor; `idx` is the absolute cursor position, `gd` the getdata being
built, `n` the `numRequested` counter.  The final `Bool` records a panic
(write through a nil peer-state). -/
def fetchHVULoop (env : Env) (rootH : Int) (prevURoot : Option UtreexoRootHint) :
    List HeaderNode → Nat → SMState → List InvVect → Nat → SMState × List InvVect × Bool
  | [], _, s, gd, _ => (s, gd, false)
  | node :: rest, idx, s, gd, n =>
    if (match prevURoot with
        | some pu => decide (node.height ≤ pu.height)
        | none => false) then
      fetchHVULoop env rootH prevURoot rest (idx + 1) s gd n
    else if node.height > rootH then (s, gd, false)
    else
      match s.syncPeer with
      | none => (s, gd, true)
      | some sp =>
        match getPeerState s.peerStates sp with
        | none => (s, gd, true)
        | some spst =>
          let ty : InvType :=
            if (env.peerInfo sp).isWitnessEnabled then
              if s.utreexoCSN then .witnessUBlock else .witnessBlock
            else .ublock
          let s := { s with
            requestedBlocks := insert node.hash s.requestedBlocks,
            peerStates := setPeerState s.peerStates sp
              { spst with requestedBlocks := insert node.hash spst.requestedBlocks } }
          let gd := gd ++ [⟨ty, node.hash⟩]
          let n := n + 1
          let s := { s with startHeader := if rest.isEmpty then none else some (idx + 1) }
          if n ≥ maxInvPerMsg then (s, gd, false)
          else fetchHVULoop env rootH prevURoot rest (idx + 1) s gd n

/-- `sm.fetchHeaderVerifyUBlocks()`. -/
def fetchHeaderVerifyUBlocks (env : Env) (s : SMState) : SMState × List Effect × Bool :=
  match s.startHeader with
  | none => (s, [], false)
  | some idx =>
    match s.utreexoRootToVerify with
    | none => (s, [], true)
    | some rootToVerify =>
      let prevURoot := env.findPreviousUtreexoRootHint rootToVerify.height
      let (s', gd, pan) :=
        fetchHVULoop env rootToVerify.height prevURoot (s.headerList.drop idx) idx s [] 0
      if pan then (s', [], true)
      else
        match s'.syncPeer, gd with
        | some sp, _ :: _ => (s', [Effect.queueGetData sp gd], false)
        | _, _ => (s', [], false)

/-- Shared loop of `fetchHeaderBlocks` (`ublockVariant = false`) and
`fetchHeaderUBlocks` (`ublockVariant = true`); the two Go functions are
identical except for the inventory type requested.  The final `Bool`
records a panic (write through a nil peer-state). -/
def fetchHeaderBlocksLoop (env : Env) (ublockVariant : Bool) :
    List HeaderNode → Nat → SMState → List InvVect → Nat → SMState × List InvVect × Bool
  | [], _, s, gd, _ => (s, gd, false)
  | node :: rest, idx, s, gd, n =>
    let iv0 : InvVect := ⟨if ublockVariant then .ublock else .block, node.hash⟩
    let haveInv := (haveInventory env iv0).getD false
    if !haveInv then
      match s.syncPeer with
      | none => (s, gd, true)
      | some sp =>
        match getPeerState s.peerStates sp with
        | none => (s, gd, true)
        | some spst =>
          let ty : InvType :=
            if (env.peerInfo sp).isWitnessEnabled then
              if ublockVariant then
                if s.utreexoCSN then .witnessUBlock else .witnessBlock
              else .witnessBlock
            else iv0.ty
          let s := { s with
            requestedBlocks := insert node.hash s.requestedBlocks,
            peerStates := setPeerState s.peerStates sp
              { spst with requestedBlocks := insert node.hash spst.requestedBlocks } }
          let gd := gd ++ [⟨ty, node.hash⟩]
          let n := n + 1
          let s := { s with startHeader := if rest.isEmpty then none else some (idx + 1) }
          if n ≥ maxInvPerMsg then (s, gd, false)
          else fetchHeaderBlocksLoop env ublockVariant rest (idx + 1) s gd n
    else
      let s := { s with startHeader := if rest.isEmpty then none else some (idx + 1) }
      if n ≥ maxInvPerMsg then (s, gd, false)
      else fetchHeaderBlocksLoop env ublockVariant rest (idx + 1) s gd n

/-- `sm.fetchHeaderBlocks()`. -/
def fetchHeaderBlocks (env : Env) (s : SMState) : SMState × List Effect :=
  match s.startHeader with
  | none => (s, [])
  | some idx =>
    let (s', gd, pan) := fetchHeaderBlocksLoop env false (s.headerList.drop idx) idx s [] 0
    if pan then (s', [Effect.panicked])
    else
      match s'.syncPeer, gd with
      | some sp, _ :: _ => (s', [Effect.queueGetData sp gd])
      | _, _ => (s', [])

/-- `sm.fetchHeaderUBlocks()`. -/
def fetchHeaderUBlocks (env : Env) (s : SMState) : SMState × List Effect :=
  match s.startHeader with
  | none => (s, [])
  | some idx =>
    let (s', gd, pan) := fetchHeaderBlocksLoop env true (s.headerList.drop idx) idx s [] 0
    if pan then (s', [Effect.panicked])
    else
      match s'.syncPeer, gd with
      | some sp, _ :: _ => (s', [Effect.queueGetData sp gd])
      | _, _ => (s', [])

/-- `sm.ValidateUtreexoRoot()`: the sync-peer selection used in root-verify
mode by a main node (`now` models `time.Now()`, `choice` the random draw). -/
def ValidateUtreexoRoot (env : Env) (now choice : Nat) (s : SMState) : SMState × List Effect :=
  match s.utreexoRootToVerify with
  | none => (s, [Effect.panicked])
  | some rootToVerify =>
    let endHeight := rootToVerify.height
    let (ps', his, eqs) := syncPeerScan env true endHeight s.peerStates
    let s := { s with peerStates := ps' }
    match pickBestPeer choice his eqs with
    | none => (s, [])
    | some bestPeer =>
      let s := { s with utreexoRootVerifyMode := true, headersFirstMode := true }
      match env.latestBlockLocator with
      | none => (s, [])
      | some locator =>
        if env.regressionNet then
          ({ s with syncPeer := some bestPeer, lastProgressTime := now }, [])
        else
          match s.headerList.getLast? with
          | none => (s, [Effect.panicked])
          | some prevNode =>
            if prevNode.height ≥ rootToVerify.height then
              let s := { s with syncPeer := some bestPeer }
              let (s, effs, pan) := fetchHeaderVerifyUBlocks env s
              if pan then (s, effs ++ [Effect.panicked])
              else
                ({ s with syncPeer := some bestPeer, lastProgressTime := now }, effs)
            else
              ({ s with
                  headersFirstMode := true
                  syncPeer := some bestPeer
                  lastProgressTime := now },
               [Effect.pushGetHeaders bestPeer locator zeroHash])

/-- `sm.startSync()`: choose the best candidate peer and start syncing from
it (`now` models `time.Now()`, `choice` the random draw). -/
def startSync (env : Env) (now choice : Nat) (s : SMState) : SMState × List Effect :=
  if s.syncPeer.isSome then (s, [])
  else if s.utreexoRootVerifyMode then
    if s.utreexoMN then ValidateUtreexoRoot env now choice s
    else if s.uTreeMap.length > 0 then
      (s, s.uTreeMap.map fun e => Effect.queueURootHint e.2.rootToVerify)
    else (s, [])
  else
    match env.segwitActive with
    | none => (s, [])
    | some segwitActive =>
      let (ps', his, eqs) := syncPeerScan env segwitActive env.bestHeight s.peerStates
      let s := { s with peerStates := ps' }
      match pickBestPeer choice his eqs with
      | none => (s, [])
      | some bestPeer =>
        let s := { s with requestedBlocks := ∅ }
        match env.latestBlockLocator with
        | none => (s, [])
        | some locator =>
          match s.nextCheckpoint with
          | some cp =>
            if env.bestHeight < cp.height ∧ env.regressionNet = false then
              ({ s with
                  headersFirstMode := true
                  syncPeer := some bestPeer
                  lastProgressTime := now },
               [Effect.pushGetHeaders bestPeer locator cp.hash])
            else if s.utreexoCSN then
              ({ s with syncPeer := some bestPeer, lastProgressTime := now },
               [Effect.pushGetUBlocks bestPeer locator zeroHash])
            else
              ({ s with syncPeer := some bestPeer, lastProgressTime := now },
               [Effect.pushGetBlocks bestPeer locator zeroHash])
          | none =>
            if s.utreexoCSN then
              ({ s with syncPeer := some bestPeer, lastProgressTime := now },
               [Effect.pushGetUBlocks bestPeer locator zeroHash])
            else
              ({ s with syncPeer := some bestPeer, lastProgressTime := now },
               [Effect.pushGetBlocks bestPeer locator zeroHash])

/-! ## Peer arrival, departure, stall detection -/

/-- `sm.isSyncCandidate` + `sm.handleNewPeerMsg(peer)`. -/
def handleNewPeerMsg (env : Env) (now choice : Nat) (p : PeerId) (s : SMState) :
    SMState × List Effect :=
  if s.shutdown then (s, [])
  else
    let cand := isSyncCandidate env s p
    let s := { s with peerStates := insertPeerState s.peerStates p ⟨cand, [], ∅, ∅⟩ }
    if cand && s.syncPeer.isNone then
      let (latchEffs, s) :=
        if s.newSyncNum = 0 then
          ([Effect.closeNewSyncPeerLatch], { s with newSyncNum := s.newSyncNum + 1 })
        else ([], s)
      let (s, effs) := startSync env now choice s
      (s, latchEffs ++ effs)
    else (s, [])

/-- `sm.shouldDCStalledSyncPeer()` for the peer `p` (the current sync peer):
disconnect iff the peer's reported height exceeds our best height. -/
def shouldDCStalledSyncPeer (env : Env) (p : PeerId) : Bool :=
  let lastBlock := (env.peerInfo p).lastBlock
  let startHeight := (env.peerInfo p).startingHeight
  let peerHeight := if lastBlock > startHeight then lastBlock else startHeight
  decide (peerHeight > env.bestHeight)

/-- `sm.updateSyncPeer(dcSyncPeer)`. -/
def updateSyncPeer (env : Env) (now choice : Nat) (dcSyncPeer : Bool) (s : SMState) :
    SMState × List Effect :=
  let dcEff : List Effect :=
    match s.syncPeer with
    | some p => if dcSyncPeer then [.disconnect p] else []
    | none => []
  let s := if s.headersFirstMode then resetHeaderState env env.bestHash env.bestHeight s else s
  let s := { s with syncPeer := none }
  let (s, effs) := startSync env now choice s
  (s, dcEff ++ effs)

/-- `sm.handleStallSample()` (`now` models `time.Now()` in seconds). -/
def handleStallSample (env : Env) (now choice : Nat) (s : SMState) : SMState × List Effect :=
  if s.shutdown then (s, [])
  else
    match s.syncPeer with
    | none => (s, [])
    | some sp =>
      if now - s.lastProgressTime ≤ maxStallDuration then (s, [])
      else
        match getPeerState s.peerStates sp with
        | none => (s, [])
        | some st =>
          let s := clearRequestedState s st
          updateSyncPeer env now choice (shouldDCStalledSyncPeer env sp) s

/-- `sm.handleDonePeerMsg(peer)`. -/
def handleDonePeerMsg (env : Env) (now choice : Nat) (p : PeerId) (s : SMState) :
    SMState × List Effect :=
  match getPeerState s.peerStates p with
  | none => (s, [])
  | some st =>
    let s := { s with peerStates := removePeerState s.peerStates p }
    let s := clearRequestedState s st
    if s.syncPeer = some p then updateSyncPeer env now choice false s
    else (s, [])

/-! ## Per-call collaborator outcomes -/

/-- A chain best snapshot (`chain.BestSnapshot()`). -/
structure Snapshot where
  height : Int
  hash : Hash
deriving DecidableEq, Repr

/-- Error classification for `ProcessBlock` / `ProcessUBlock`. -/
inductive BlockErrKind where
  | rule
  | dbCorruption
  | other
deriving DecidableEq, Repr

/-- Per-call result of `chain.ProcessBlock`/`chain.ProcessUBlock`, together
with the chain observations the handler makes after the call. -/
structure ProcessBlockOutcome where
  errKind : Option BlockErrKind
  isOrphan : Bool
  snapAfter : Snapshot
  chainIsCurrentAfter : Bool
deriving DecidableEq, Repr

/-- Error classification for the mempool's `ProcessTransaction`. -/
inductive TxErrKind where
  | rule
  | other
deriving DecidableEq, Repr

/-- Per-call result of `mempool.ProcessTransaction`. -/
structure ProcessTxOutcome where
  acceptedTxs : List Hash
  errKind : Option TxErrKind
deriving DecidableEq, Repr

/-- Per-call result of `chain.ProcessHeaderUBlock`, including the mutated
accumulator viewpoint and post-call chain observations. -/
structure ProcessHeaderUBlockOutcome where
  mainChain : Bool
  procErr : Bool
  viewAfter : UtreexoViewpoint
  snapAfter : Snapshot
  chainIsCurrentAfter : Bool
deriving DecidableEq, Repr

/-- Observations of a `btcutil.Block` used by `handleBlockMsg`
(`coinbaseHeight = none` models an `ExtractCoinbaseHeight` error). -/
structure BlockMsgData where
  hash : Hash
  shouldHaveSerializedHeight : Bool
  coinbaseHeight : Option Int
deriving DecidableEq, Repr

/-- Observations of a `btcutil.UBlock` used by the ublock handlers. -/
structure UBlockMsgData where
  hash : Hash
  height : Int
  shouldHaveSerializedHeight : Bool
  coinbaseHeight : Option Int
deriving DecidableEq, Repr

/-! ## Transaction handling -/

/-- `sm.handleTxMsg(tmsg)`; `ptr` is the mempool's `ProcessTransaction`
outcome for this call, `pick` the arbitrary `limitAdd` eviction choice. -/
def handleTxMsg (_env : Env) (ptr : ProcessTxOutcome) (pick : Finset Hash → Hash)
    (p : PeerId) (txHash : Hash) (s : SMState) : SMState × List Effect :=
  match getPeerState s.peerStates p with
  | none => (s, [])
  | some st =>
    if txHash ∈ s.rejectedTxns then (s, [])
    else
      let effs := [Effect.processTransactionCall txHash]
      let st := { st with requestedTxns := st.requestedTxns.erase txHash }
      let s := { s with
        peerStates := setPeerState s.peerStates p st
        requestedTxns := s.requestedTxns.erase txHash }
      match ptr.errKind with
      | some _ =>
        let s := { s with
          rejectedTxns := limitAdd (pick s.rejectedTxns) s.rejectedTxns txHash maxRejectedTxns }
        (s, effs ++ [Effect.pushReject p .cmdTx txHash])
      | none => (s, effs ++ [Effect.announceNewTransactions ptr.acceptedTxs])

/-! ## Block and ublock handling (normal loop) -/

/-- `sm.handleBlockMsg(bmsg)`; `pbr` is the chain's `ProcessBlock` outcome,
`now` models `time.Now()`.  The headers-first front removal shifts the
integer cursor that models the `startHeader` list-element pointer. -/
def handleBlockMsg (env : Env) (pbr : ProcessBlockOutcome) (now : Nat) (p : PeerId)
    (bmsg : BlockMsgData) (s : SMState) : SMState × List Effect :=
  match getPeerState s.peerStates p with
  | none => (s, [])
  | some st =>
    let blockHash := bmsg.hash
    if blockHash ∉ st.requestedBlocks ∧ env.regressionNet = false then
      (s, [Effect.disconnect p])
    else if s.utreexoCSN then (s, [])
    else
      let (isCheckpointBlock, fastAdd, s, hfPanic) :=
        if s.headersFirstMode then
          match s.headerList.head? with
          | some firstNode =>
            if blockHash = firstNode.hash then
              match s.nextCheckpoint with
              | none => (false, true, s, true)
              | some cp =>
                if firstNode.hash = cp.hash then (true, true, s, false)
                else
                  (false, true,
                   { s with
                      headerList := s.headerList.tail
                      startHeader :=
                        match s.startHeader with
                        | some (i + 1) => some i
                        | some 0 => none
                        | none => none },
                   false)
            else (false, false, s, false)
          | none => (false, false, s, false)
        else (false, false, s, false)
      if hfPanic then (s, [Effect.panicked])
      else
        let st := { st with requestedBlocks := st.requestedBlocks.erase blockHash }
        let s := { s with
          peerStates := setPeerState s.peerStates p st
          requestedBlocks := s.requestedBlocks.erase blockHash }
        let effs := [Effect.processBlockCall blockHash fastAdd]
        match pbr.errKind with
        | some .dbCorruption => (s, effs ++ [Effect.panicked])
        | some _ => (s, effs ++ [Effect.pushReject p .cmdBlock blockHash])
        | none =>
          let (heightUpdate, blkHashUpdate, s, orphanEffs) :=
            if pbr.isOrphan then
              let (hu, bu) : Int × Option Hash :=
                if bmsg.shouldHaveSerializedHeight then
                  match bmsg.coinbaseHeight with
                  | some cb => (cb, some blockHash)
                  | none => (0, none)
                else (0, none)
              let oEffs :=
                match env.latestBlockLocator with
                | none => []
                | some locator =>
                  [Effect.pushGetBlocks p locator (env.getOrphanRoot blockHash false)]
              (hu, bu, s, oEffs)
            else
              let s := if s.syncPeer = some p then { s with lastProgressTime := now } else s
              let s := { s with rejectedTxns := ∅ }
              (pbr.snapAfter.height, some pbr.snapAfter.hash, s, [])
          let updEffs :=
            match blkHashUpdate with
            | some bh =>
              if heightUpdate ≠ 0 then
                [Effect.updateLastBlockHeight p heightUpdate] ++
                (if pbr.isOrphan
                    || currentWith env pbr.chainIsCurrentAfter pbr.snapAfter.height s then
                  [Effect.updatePeerHeights bh heightUpdate p]
                else [])
              else []
            | none => []
          let effs := effs ++ orphanEffs ++ updEffs
          if !s.headersFirstMode then (s, effs)
          else if !isCheckpointBlock then
            if s.startHeader.isSome ∧ st.requestedBlocks.card < minInFlightBlocks then
              let (s, fEffs) := fetchHeaderBlocks env s
              (s, effs ++ fEffs)
            else (s, effs)
          else
            match s.nextCheckpoint with
            | none => (s, effs ++ [Effect.panicked])
            | some cp =>
              let s := { s with
                nextCheckpoint := findNextHeaderCheckpoint env.checkpoints cp.height }
              match s.nextCheckpoint with
              | some ncp => (s, effs ++ [Effect.pushGetHeaders p [cp.hash] ncp.hash])
              | none =>
                let s := { s with headersFirstMode := false, headerList := [] }
                (s, effs ++ [Effect.pushGetBlocks p [blockHash] zeroHash])

/-- `sm.handleUBlockMsg(ubmsg)`; identical to `handleBlockMsg` except for the
ublock chain calls, the reject command, the getublocks orphan recovery, the
periodic cache flush outside headers-first mode, and the absence of the
CSN plain-block drop. -/
def handleUBlockMsg (env : Env) (pbr : ProcessBlockOutcome) (now : Nat) (p : PeerId)
    (ub : UBlockMsgData) (s : SMState) : SMState × List Effect :=
  match getPeerState s.peerStates p with
  | none => (s, [])
  | some st =>
    let blockHash := ub.hash
    if blockHash ∉ st.requestedBlocks ∧ env.regressionNet = false then
      (s, [Effect.disconnect p])
    else
      let (isCheckpointBlock, fastAdd, s, hfPanic) :=
        if s.headersFirstMode then
          match s.headerList.head? with
          | some firstNode =>
            if blockHash = firstNode.hash then
              match s.nextCheckpoint with
              | none => (false, true, s, true)
              | some cp =>
                if firstNode.hash = cp.hash then (true, true, s, false)
                else
                  (false, true,
                   { s with
                      headerList := s.headerList.tail
                      startHeader :=
                        match s.startHeader with
                        | some (i + 1) => some i
                        | some 0 => none
                        | none => none },
                   false)
            else (false, false, s, false)
          | none => (false, false, s, false)
        else (false, false, s, false)
      if hfPanic then (s, [Effect.panicked])
      else
        let st := { st with requestedBlocks := st.requestedBlocks.erase blockHash }
        let s := { s with
          peerStates := setPeerState s.peerStates p st
          requestedBlocks := s.requestedBlocks.erase blockHash }
        let effs := [Effect.processUBlockCall blockHash fastAdd]
        match pbr.errKind with
        | some .dbCorruption => (s, effs ++ [Effect.panicked])
        | some _ => (s, effs ++ [Effect.pushReject p .cmdUBlock blockHash])
        | none =>
          let (heightUpdate, blkHashUpdate, s, orphanEffs) :=
            if pbr.isOrphan then
              let (hu, bu) : Int × Option Hash :=
                if ub.shouldHaveSerializedHeight then
                  match ub.coinbaseHeight with
                  | some cb => (cb, some blockHash)
                  | none => (0, none)
                else (0, none)
              let oEffs :=
                match env.latestBlockLocator with
                | none => []
                | some locator =>
                  [Effect.pushGetUBlocks p locator (env.getOrphanRoot blockHash true)]
              (hu, bu, s, oEffs)
            else
              let s := if s.syncPeer = some p then { s with lastProgressTime := now } else s
              let s := { s with rejectedTxns := ∅ }
              (pbr.snapAfter.height, some pbr.snapAfter.hash, s, [])
          let updEffs :=
            match blkHashUpdate with
            | some bh =>
              if heightUpdate ≠ 0 then
                [Effect.updateLastBlockHeight p heightUpdate] ++
                (if pbr.isOrphan
                    || currentWith env pbr.chainIsCurrentAfter pbr.snapAfter.height s then
                  [Effect.updatePeerHeights bh heightUpdate p]
                else [])
              else []
            | none => []
          let effs := effs ++ orphanEffs ++ updEffs
          if !s.headersFirstMode then (s, effs ++ [Effect.flushCachedState false])
          else if !isCheckpointBlock then
            if s.startHeader.isSome ∧ st.requestedBlocks.card < minInFlightBlocks then
              let (s, fEffs) := fetchHeaderUBlocks env s
              (s, effs ++ fEffs)
            else (s, effs)
          else
            match s.nextCheckpoint with
            | none => (s, effs ++ [Effect.panicked])
            | some cp =>
              let s := { s with
                nextCheckpoint := findNextHeaderCheckpoint env.checkpoints cp.height }
              match s.nextCheckpoint with
              | some ncp => (s, effs ++ [Effect.pushGetHeaders p [cp.hash] ncp.hash])
              | none =>
                let s := { s with headersFirstMode := false, headerList := [] }
                (s, effs ++ [Effect.pushGetUBlocks p [blockHash] zeroHash])

/-! ## notfound handling -/

/-- Loop of `handleNotFoundMsg` over the notfound inventory: delete each
announced hash from the per-peer set and the matching global map, but only
when the peer had actually been asked for it. -/
def notFoundLoop : List InvVect → PeerSyncState → Finset Hash → Finset Hash →
    PeerSyncState × Finset Hash × Finset Hash
  | [], st, rb, rt => (st, rb, rt)
  | iv :: rest, st, rb, rt =>
    match iv.ty with
    | .witnessBlock | .block | .witnessUBlock | .ublock =>
      if iv.hash ∈ st.requestedBlocks then
        notFoundLoop rest { st with requestedBlocks := st.requestedBlocks.erase iv.hash }
          (rb.erase iv.hash) rt
      else notFoundLoop rest st rb rt
    | .witnessTx | .tx =>
      if iv.hash ∈ st.requestedTxns then
        notFoundLoop rest { st with requestedTxns := st.requestedTxns.erase iv.hash }
          rb (rt.erase iv.hash)
      else notFoundLoop rest st rb rt
    | .other => notFoundLoop rest st rb rt

/-- `sm.handleNotFoundMsg(nfmsg)`. -/
def handleNotFoundMsg (p : PeerId) (invList : List InvVect) (s : SMState) :
    SMState × List Effect :=
  match getPeerState s.peerStates p with
  | none => (s, [])
  | some st =>
    let r := notFoundLoop invList st s.requestedBlocks s.requestedTxns
    ({ s with
        peerStates := setPeerState s.peerStates p r.1
        requestedBlocks := r.2.1
        requestedTxns := r.2.2 }, [])

/-! ## inv handling -/

/-- Index (and vector) of the final block-type inv in the list, scanning from
the end as the Go code does; `none` models `lastBlock = -1`. -/
def lastBlockIndex : List InvVect → Option (Nat × InvVect)
  | [] => none
  | iv :: rest =>
    match lastBlockIndex rest with
    | some (i, v) => some (i + 1, v)
    | none =>
      if iv.ty = InvType.block ∨ iv.ty = InvType.ublock then some (0, iv) else none

/-- First loop of `handleInvMsg` over the inventory vectors: known-inventory
caching, request-queue building, orphan recovery and forced continuation
requests.  Only the peer's `requestQueue` is mutated. -/
def invLoop (env : Env) (s : SMState) (p : PeerId) (lastBlock : Option (Nat × InvVect)) :
    List InvVect → Nat → PeerSyncState → List Effect → PeerSyncState × List Effect
  | [], _, st, effs => (st, effs)
  | iv :: rest, i, st, effs =>
    if iv.ty = InvType.other then invLoop env s p lastBlock rest (i + 1) st effs
    else
      let effs := effs ++ [Effect.addKnownInventory p iv]
      if s.headersFirstMode then invLoop env s p lastBlock rest (i + 1) st effs
      else
        match haveInventory env iv with
        | none => invLoop env s p lastBlock rest (i + 1) st effs
        | some haveInv =>
          if !haveInv then
            if iv.ty = InvType.tx ∧ iv.hash ∈ s.rejectedTxns then
              invLoop env s p lastBlock rest (i + 1) st effs
            else if (env.peerInfo p).isWitnessEnabled = false ∧ iv.ty = InvType.block then
              invLoop env s p lastBlock rest (i + 1) st effs
            else
              invLoop env s p lastBlock rest (i + 1)
                { st with requestQueue := st.requestQueue ++ [iv] } effs
          else if iv.ty = InvType.block then
            if s.utreexoCSN then
              if env.isKnownOrphan iv.hash true then
                match env.latestBlockLocator with
                | none => invLoop env s p lastBlock rest (i + 1) st effs
                | some locator =>
                  invLoop env s p lastBlock rest (i + 1) st
                    (effs ++ [Effect.pushGetUBlocks p locator (env.getOrphanRoot iv.hash true)])
              else
                let effs := effs ++
                  (if lastBlock.map (·.1) = some i then
                    [Effect.pushGetUBlocks p (env.blockLocatorFromHash iv.hash) zeroHash]
                  else [])
                (st, effs)
            else
              if env.isKnownOrphan iv.hash false then
                match env.latestBlockLocator with
                | none => invLoop env s p lastBlock rest (i + 1) st effs
                | some locator =>
                  invLoop env s p lastBlock rest (i + 1) st
                    (effs ++ [Effect.pushGetBlocks p locator (env.getOrphanRoot iv.hash false)])
              else
                let effs := effs ++
                  (if lastBlock.map (·.1) = some i then
                    [Effect.pushGetBlocks p (env.blockLocatorFromHash iv.hash) zeroHash]
                  else [])
                invLoop env s p lastBlock rest (i + 1) st effs
          else if iv.ty = InvType.ublock then
            if env.isKnownOrphan iv.hash true then
              match env.latestBlockLocator with
              | none => invLoop env s p lastBlock rest (i + 1) st effs
              | some locator =>
                invLoop env s p lastBlock rest (i + 1) st
                  (effs ++ [Effect.pushGetUBlocks p locator (env.getOrphanRoot iv.hash true)])
            else
              let effs := effs ++
                (if lastBlock.map (·.1) = some i then
                  [Effect.pushGetUBlocks p (env.blockLocatorFromHash iv.hash) zeroHash]
                else [])
              invLoop env s p lastBlock rest (i + 1) st effs
          else invLoop env s p lastBlock rest (i + 1) st effs

/-- Drain loop of `handleInvMsg`: move the peer's request queue into one
getdata message, registering each hash in the global and per-peer requested
maps via `limitAdd`, upgrading inv types for witness-capable peers, bounded
by `wire.MaxInvPerMsg`.  Returns the final global/per-peer state, the
remaining queue and the built getdata list. -/
def invDrain (env : Env) (pick : Finset Hash → Hash) (p : PeerId) :
    List InvVect → Nat → SMState → PeerSyncState → List InvVect →
      SMState × PeerSyncState × List InvVect × List InvVect
  | [], _, s, st, gd => (s, st, [], gd)
  | iv :: rest, n, s, st, gd =>
    let step : SMState × PeerSyncState × List InvVect × Nat :=
      match iv.ty with
      | .witnessBlock | .block =>
        if iv.hash ∉ s.requestedBlocks then
          let s := { s with
            requestedBlocks :=
              limitAdd (pick s.requestedBlocks) s.requestedBlocks iv.hash maxRequestedBlocks }
          let st := { st with
            requestedBlocks :=
              limitAdd (pick st.requestedBlocks) st.requestedBlocks iv.hash
                maxRequestedBlocks }
          let iv := if (env.peerInfo p).isWitnessEnabled then
              { iv with ty := .witnessBlock } else iv
          (s, st, gd ++ [iv], n + 1)
        else (s, st, gd, n)
      | .witnessUBlock | .ublock =>
        if iv.hash ∉ s.requestedBlocks then
          let s := { s with
            requestedBlocks :=
              limitAdd (pick s.requestedBlocks) s.requestedBlocks iv.hash maxRequestedBlocks }
          let st := { st with
            requestedBlocks :=
              limitAdd (pick st.requestedBlocks) st.requestedBlocks iv.hash
                maxRequestedBlocks }
          let iv := if (env.peerInfo p).isWitnessEnabled then
              { iv with ty := .witnessUBlock } else iv
          (s, st, gd ++ [iv], n + 1)
        else (s, st, gd, n)
      | .witnessTx | .tx =>
        if iv.hash ∉ s.requestedTxns then
          let s := { s with
            requestedTxns :=
              limitAdd (pick s.requestedTxns) s.requestedTxns iv.hash maxRequestedTxns }
          let st := { st with
            requestedTxns :=
              limitAdd (pick st.requestedTxns) st.requestedTxns iv.hash maxRequestedTxns }
          let iv := if (env.peerInfo p).isWitnessEnabled then
              { iv with ty := .witnessTx } else iv
          (s, st, gd ++ [iv], n + 1)
        else (s, st, gd, n)
      | .other => (s, st, gd, n)
    let (s, st, gd, n) := step
    if n ≥ maxInvPerMsg then (s, st, rest, gd)
    else invDrain env pick p rest n s st gd

/-- `sm.handleInvMsg(imsg)`. -/
def handleInvMsg (env : Env) (pick : Finset Hash → Hash) (p : PeerId)
    (invVects : List InvVect) (s : SMState) : SMState × List Effect :=
  match getPeerState s.peerStates p with
  | none => (s, [])
  | some st =>
    let lastBlock := lastBlockIndex invVects
    let effs : List Effect :=
      match lastBlock with
      | some (_, lv) =>
        if s.syncPeer ≠ some p ∨ current env s = true then
          [Effect.updateLastAnnouncedBlock p lv.hash]
        else []
      | none => []
    if s.syncPeer ≠ some p ∧ current env s = false then (s, effs)
    else
      let effs := effs ++
        (match lastBlock with
         | some (_, lv) =>
           if current env s then
             match env.blockHeightByHash lv.hash with
             | some bh => [Effect.updateLastBlockHeight p bh]
             | none => []
           else []
         | none => [])
      let (st, effs) := invLoop env s p lastBlock invVects 0 st effs
      let r := invDrain env pick p st.requestQueue 0 s st []
      let st := { r.2.1 with requestQueue := r.2.2.1 }
      let s := { r.1 with peerStates := setPeerState r.1.peerStates p st }
      (s, effs ++ (if r.2.2.2.isEmpty then [] else [Effect.queueGetData p r.2.2.2]))

/-! ## headers handling -/

/-- One block header as observed by the headers handlers. -/
structure BlockHeaderData where
  blockHash : Hash
  prevBlock : Hash
deriving DecidableEq, Repr

/-- Exit status of the `handleHeadersMsg` header loop. -/
inductive HeadersExit where
  | disconnected
  | panicked
  | checkpointHit
  | fellThrough
deriving DecidableEq, Repr

/-- Header-connecting loop of `handleHeadersMsg`: append each header that
links to the back of the header list, record the final hash, stop at the
next checkpoint height (hash match required). -/
def headersLoop (p : PeerId) :
    List BlockHeaderData → SMState → Option Hash → SMState × Option Hash × HeadersExit
  | [], s, finalHash => (s, finalHash, .fellThrough)
  | bh :: rest, s, _ =>
    let finalHash := some bh.blockHash
    match s.headerList.getLast? with
    | none => (s, finalHash, .disconnected)
    | some prevNode =>
      if prevNode.hash = bh.prevBlock then
        let node : HeaderNode := ⟨prevNode.height + 1, bh.blockHash⟩
        let s' := { s with
          headerList := s.headerList ++ [node]
          startHeader :=
            match s.startHeader with
            | none => some s.headerList.length
            | some i => some i }
        match s'.nextCheckpoint with
        | none => (s', finalHash, .panicked)
        | some cp =>
          if node.height = cp.height then
            if node.hash = cp.hash then (s', finalHash, .checkpointHit)
            else (s', finalHash, .disconnected)
          else headersLoop p rest s' finalHash
      else (s, finalHash, .disconnected)

/-- `sm.handleHeadersMsg(hmsg)` (normal loop). -/
def handleHeadersMsg (env : Env) (p : PeerId) (headers : List BlockHeaderData)
    (s : SMState) : SMState × List Effect :=
  match getPeerState s.peerStates p with
  | none => (s, [])
  | some _ =>
    if !s.headersFirstMode then (s, [Effect.disconnect p])
    else if headers.length = 0 then (s, [])
    else
      let (s, finalHash, ex) := headersLoop p headers s none
      match ex with
      | .disconnected => (s, [Effect.disconnect p])
      | .panicked => (s, [Effect.panicked])
      | .checkpointHit =>
        let s := { s with
          headerList := s.headerList.tail
          startHeader :=
            match s.startHeader with
            | some (i + 1) => some i
            | some 0 => none
            | none => none }
        if s.utreexoCSN then fetchHeaderUBlocks env s else fetchHeaderBlocks env s
      | .fellThrough =>
        match s.nextCheckpoint with
        | none => (s, [Effect.panicked])
        | some cp => (s, [Effect.pushGetHeaders p [finalHash.getD zeroHash] cp.hash])

/-- Exit status of the `handleOnlyHeadersMsg` header loop. -/
inductive OnlyHeadersExit where
  | done
  | disconnected
  | panicked
deriving DecidableEq, Repr

/-- Header-connecting loop of `handleOnlyHeadersMsg`: like `headersLoop` but
the stop condition is the target root hint's height (a nil target panics),
and reaching it does not stop the loop. -/
def onlyHeadersLoop (p : PeerId) (rootToVerify : Option UtreexoRootHint) :
    List BlockHeaderData → SMState → Option Hash → Bool →
      SMState × Option Hash × Bool × OnlyHeadersExit
  | [], s, finalHash, recvAll => (s, finalHash, recvAll, .done)
  | bh :: rest, s, _, recvAll =>
    let finalHash := some bh.blockHash
    match s.headerList.getLast? with
    | none => (s, finalHash, recvAll, .disconnected)
    | some prevNode =>
      if prevNode.hash = bh.prevBlock then
        let node : HeaderNode := ⟨prevNode.height + 1, bh.blockHash⟩
        let s' := { s with
          headerList := s.headerList ++ [node]
          startHeader :=
            match s.startHeader with
            | none => some s.headerList.length
            | some i => some i }
        match rootToVerify with
        | none => (s', finalHash, recvAll, .panicked)
        | some rtv =>
          onlyHeadersLoop p rootToVerify rest s' finalHash
            (recvAll || decide (node.height = rtv.height))
      else (s, finalHash, recvAll, .disconnected)

/-- `sm.handleOnlyHeadersMsg(hmsg)` (headers-only loop); `processHeadersOk`
is the chain's `ProcessHeaders` verdict.  The final `Bool` is the
`finished` result signalled through the done channel. -/
def handleOnlyHeadersMsg (_env : Env) (processHeadersOk : Bool) (p : PeerId)
    (headers : List BlockHeaderData) (s : SMState) : SMState × List Effect × Bool :=
  match getPeerState s.peerStates p with
  | none => (s, [], false)
  | some _ =>
    if !processHeadersOk then (s, [Effect.disconnect p], false)
    else
      let (s, finalHash, recvAll, ex) :=
        onlyHeadersLoop p s.utreexoRootToVerify headers s none false
      match ex with
      | .disconnected => (s, [Effect.disconnect p], false)
      | .panicked => (s, [Effect.panicked], false)
      | .done =>
        if recvAll then (s, [], true)
        else (s, [Effect.pushGetHeaders p [finalHash.getD zeroHash] zeroHash], false)

/-! ## Root-verify worker -/

/-- `sm.uTreeMap[k]` lookup. -/
def lookupUTree : List (Int × UTreeState) → Int → Option UTreeState
  | [], _ => none
  | (k, v) :: rest, key => if k = key then some v else lookupUTree rest key

/-- `sm.uTreeMap[k] = v` for a key already present (the worker re-stores the
entry it looked up). -/
def setUTree (l : List (Int × UTreeState)) (key : Int) (v : UTreeState) :
    List (Int × UTreeState) :=
  l.map fun e => if e.1 = key then (key, v) else e

/-- `delete(sm.uTreeMap, k)`. -/
def removeUTree (l : List (Int × UTreeState)) (key : Int) : List (Int × UTreeState) :=
  l.filter fun e => !(e.1 == key)

/-- `sm.uRootHandleUBlockMsg(ubmsg)` (the root-verify worker); `phu` is the
chain's `ProcessHeaderUBlock` outcome for this ublock, `now` models
`time.Now()`. -/
def uRootHandleUBlockMsg (env : Env) (phu : ProcessHeaderUBlockOutcome) (now : Nat)
    (p : PeerId) (ub : UBlockMsgData) (s : SMState) : SMState × List Effect :=
  match getPeerState s.peerStates p with
  | none => (s, [])
  | some st =>
    let blockHash := ub.hash
    if blockHash ∉ st.requestedBlocks ∧ env.regressionNet = false then
      (s, [Effect.disconnect p])
    else
      let st := { st with requestedBlocks := st.requestedBlocks.erase blockHash }
      let s := { s with
        peerStates := setPeerState s.peerStates p st
        requestedBlocks := s.requestedBlocks.erase blockHash }
      match env.lookupNode blockHash with
      | none => (s, [Effect.panicked])
      | some blockHeight =>
        let searchHeight : Int :=
          match env.findPreviousUtreexoRootHint blockHeight with
          | some uRootHint => uRootHint.height
          | none => 0
        match lookupUTree s.uTreeMap searchHeight with
        | none => (s, [Effect.panicked])
        | some uState =>
          let effs := [Effect.processHeaderUBlockCall blockHash]
          if phu.procErr then (s, effs ++ [Effect.panicked])
          else if !phu.mainChain then (s, effs ++ [Effect.panicked])
          else
            let uState := { uState with uView := phu.viewAfter }
            let s := { s with uTreeMap := setUTree s.uTreeMap searchHeight uState }
            if ub.height = uState.rootToVerify.height then
              let s := { s with uTreeMap := removeUTree s.uTreeMap searchHeight }
              if uState.uView.Equal uState.rootToVerify.roots then
                (s, effs ++ [Effect.report true ub.height])
              else (s, effs ++ [Effect.report false ub.height])
            else
              let s := if s.syncPeer = some p then { s with lastProgressTime := now } else s
              let heightUpdate := phu.snapAfter.height
              let s := { s with rejectedTxns := ∅ }
              let effs := effs ++
                (if heightUpdate ≠ 0 then
                  [Effect.updateLastBlockHeight p heightUpdate] ++
                  (if currentWith env phu.chainIsCurrentAfter phu.snapAfter.height s then
                    [Effect.updatePeerHeights phu.snapAfter.hash heightUpdate p]
                  else [])
                else [])
              (s, effs)

/-! ## Event-loop shutdown and construction -/

/-- The shutdown tail of `blockHandler` after `quit` closes: flush the chain
caches (`FlushRequired`) unless in root-verify mode, then signal the wait
group. -/
def blockHandlerOnQuit (s : SMState) : List Effect :=
  (if !s.utreexoRootVerifyMode then [Effect.flushCachedState true] else []) ++
    [Effect.wgDone]

/-- The shutdown tail of `headerHandler`: no flush, just the wait group. -/
def headerHandlerOnQuit (_s : SMState) : List Effect := [Effect.wgDone]

/-- The shutdown tail of `uRootHintVerifyHandler`: no flush. -/
def uRootHintVerifyHandlerOnQuit (_s : SMState) : List Effect := [Effect.wgDone]

/-- The configuration fields of `netsync.Config` that reach `SMState`. -/
structure Config where
  disableCheckpoints : Bool
  utreexoCSN : Bool
  utreexoMN : Bool
  utreexoWN : Bool
  utreexoRootVerifyMode : Bool
deriving DecidableEq, Repr

/-- `netsync.New(config)`: the initial manager state. -/
def newSyncManager (env : Env) (cfg : Config) : SMState :=
  let s : SMState := {
    shutdown := false
    rejectedTxns := ∅
    requestedTxns := ∅
    requestedBlocks := ∅
    syncPeer := none
    peerStates := []
    lastProgressTime := 0
    headersFirstMode := false
    headerList := []
    startHeader := none
    nextCheckpoint := none
    utreexoCSN := cfg.utreexoCSN
    utreexoMN := cfg.utreexoMN
    utreexoWN := cfg.utreexoWN
    utreexoRootVerifyMode := cfg.utreexoRootVerifyMode
    utreexoRootToVerify := none
    utreexoStartRoot := none
    newSyncNum := 0
    uTreeMap := [] }
  if !cfg.disableCheckpoints then
    let s := { s with
      nextCheckpoint := findNextHeaderCheckpoint env.checkpoints env.bestHeight }
    if s.nextCheckpoint.isSome then resetHeaderState env env.bestHash env.bestHeight s
    else s
  else
    if s.utreexoRootVerifyMode then
      { s with headerList := [⟨env.bestHeight, env.bestHash⟩] }
    else s

/-! ## Invariants and fixtures -/

/-- A `limitAdd` eviction-choice function consistent with Go map iteration:
on a non-empty map it returns one of its elements. -/
def PickValid (pick : Finset Hash → Hash) : Prop :=
  ∀ m : Finset Hash, m.Nonempty → pick m ∈ m

/-- A concrete valid eviction choice: the smallest element. -/
def minPick : Finset Hash → Hash := fun m =>
  if h : m.Nonempty then m.min' h else 0

/-- The per-peer/global coupling condition on a peer registry `ps` and a
global requested-block map `rb`: every hash in a per-peer `requestedBlocks`
is in `rb`, and no other peer's per-peer set contains it. -/
def ReqBlocksInvOn (ps : List (PeerId × PeerSyncState)) (rb : Finset Hash) : Prop :=
  ∀ pr ∈ ps, ∀ h ∈ pr.2.requestedBlocks,
    h ∈ rb ∧ ∀ qr ∈ ps, h ∈ qr.2.requestedBlocks → qr.1 = pr.1

instance (ps : List (PeerId × PeerSyncState)) (rb : Finset Hash) :
    Decidable (ReqBlocksInvOn ps rb) := by
  unfold ReqBlocksInvOn; infer_instance

/-- The per-peer/global coupling invariant (spec §3 and §8) of a manager
state. -/
def ReqBlocksInvariant (s : SMState) : Prop :=
  ReqBlocksInvOn s.peerStates s.requestedBlocks

instance (s : SMState) : Decidable (ReqBlocksInvariant s) := by
  unfold ReqBlocksInvariant; infer_instance

/-- A small concrete environment used by witnesses and counterexamples: two
reachable-looking peers at the chain tip, mainnet flags, no checkpoints. -/
def testEnv : Env where
  peerInfo := fun _ => ⟨0, 0, true, true, true, false⟩
  regressionNet := false
  bestHeight := 0
  bestHash := 90
  chainIsCurrent := true
  segwitActive := some false
  latestBlockLocator := some [90]
  checkpoints := []
  chainHaveBlock := fun _ => some false
  chainHaveUBlock := fun _ => some false
  txKnown := fun _ => some false
  isKnownOrphan := fun _ _ => false
  getOrphanRoot := fun h _ => h
  blockLocatorFromHash := fun h => [h]
  blockHeightByHash := fun _ => none
  lookupNode := fun _ => none
  findPreviousUtreexoRootHint := fun _ => none

/-- Fresh manager state over `testEnv` (normal mode, checkpoints disabled). -/
def testState : SMState := newSyncManager testEnv ⟨true, false, false, false, false⟩

/-- Counterexample trace for the coupling invariant: peer 1 connects and
becomes sync peer; peer 2 connects; an inv from peer 2 puts hash 42 in both
the global and peer 2's requested maps; peer 1 disconnects, so `startSync`
picks peer 2 and clears the global map, leaving 42 dangling in peer 2's
per-peer set. -/
def c1State1 : SMState := (handleNewPeerMsg testEnv 0 0 1 testState).1

def c1State2 : SMState := (handleNewPeerMsg testEnv 0 0 2 c1State1).1

def c1State3 : SMState := (handleInvMsg testEnv (fun _ => 0) 2 [⟨.block, 42⟩] c1State2).1

def c1State4 : SMState := (handleDonePeerMsg testEnv 0 0 1 c1State3).1

/-- Counterexample state for the `requested_blocks` size bound: the global map
is exactly at the bound while one more header remains to be fetched in
headers-first mode. -/
def c4State : SMState :=
  { testState with
    requestedBlocks := Finset.range maxRequestedBlocks
    syncPeer := some 1
    peerStates := [(1, ⟨true, [], ∅, ∅⟩)]
    headersFirstMode := true
    headerList := [⟨1, 50000⟩]
    startHeader := some 0 }

/-- Root-verify worker fixtures: a chain that places every block at height 5,
whose range starts at key 0 and targets a root hint at height 10. -/
def c2Env : Env := { testEnv with lookupNode := fun _ => some 5 }

def c2UState : UTreeState := ⟨⟨[7]⟩, none, ⟨10, [1, 2]⟩⟩

def c2State : SMState := { c1State3 with uTreeMap := [(0, c2UState)] }

def c2Phu : ProcessHeaderUBlockOutcome := ⟨true, false, ⟨[1, 2]⟩, ⟨5, 0⟩, false⟩

/-- Headers-first checkpoint fixtures: a checkpoint at height 50 (hash 100)
followed by a final checkpoint at height 80 (hash 200); the checkpoint
block 100 is in flight from peer 2. -/
def c8Env : Env := { testEnv with checkpoints := [⟨50, 100⟩, ⟨80, 200⟩] }

def c8State : SMState :=
  { c1State2 with
    headersFirstMode := true
    nextCheckpoint := some ⟨50, 100⟩
    headerList := [⟨50, 100⟩]
    peerStates := [(1, ⟨true, [], ∅, ∅⟩), (2, ⟨true, [], ∅, {100}⟩)] }

/-! ## Theorems -/

theorem limitAdd_bound (victim : Hash) (m : Finset Hash) (h : Hash) (L : Nat)
    (hL : 0 < L) (hcard : m.card ≤ L) (hok : StepOk L m victim) :
    h ∈ limitAdd victim m h L ∧ (limitAdd victim m h L).card ≤ L := by
  unfold limitAdd
  refine ⟨by simp, ?_⟩
  by_cases hb : m.card + 1 > L
  · simp only [if_pos hb]
    rcases hok hb with hv | he
    · have h1 : 1 ≤ m.card := Finset.card_pos.mpr ⟨victim, hv⟩
      calc (insert h (m.erase victim)).card
          ≤ (m.erase victim).card + 1 := Finset.card_insert_le _ _
        _ = m.card - 1 + 1 := by rw [Finset.card_erase_of_mem hv]
        _ ≤ L := by omega
    · subst he
      simp only [Finset.erase_empty]
      calc (insert h (∅ : Finset Hash)).card ≤ (∅ : Finset Hash).card + 1 :=
            Finset.card_insert_le _ _
        _ ≤ L := by simpa using hL
  · simp only [if_neg hb]
    calc (insert h m).card ≤ m.card + 1 := Finset.card_insert_le _ _
      _ ≤ L := by omega

theorem limitAddSeq_bound (L : Nat) (hL : 0 < L) :
    ∀ (tr : List (Hash × Hash)) (m : Finset Hash), m.card ≤ L → ValidTrace L m tr →
      (limitAddSeq L m tr).card ≤ L ∧
      ∀ vh, tr.getLast? = some vh → vh.2 ∈ limitAddSeq L m tr
  | [], m, hc, _ => ⟨hc, by intro vh hlast; simp at hlast⟩
  | (v, h) :: rest, m, hc, hvt => by
    obtain ⟨hok, hvt'⟩ := hvt
    obtain ⟨hmem, hcard'⟩ := limitAdd_bound v m h L hL hc hok
    obtain ⟨ih1, ih2⟩ := limitAddSeq_bound L hL rest (limitAdd v m h L) hcard' hvt'
    refine ⟨ih1, ?_⟩
    intro vh hlast
    cases rest with
    | nil =>
      simp only [List.getLast?_singleton, Option.some.injEq] at hlast
      subst hlast
      simpa [limitAddSeq] using hmem
    | cons b bs =>
      have : (b :: bs).getLast? = some vh := by
        simpa [List.getLast?_cons_cons] using hlast
      exact ih2 vh this

/-- C3: a `limitAdd` call on a map of at most `L > 0` entries (with a victim
choice consistent with Go map iteration) yields a map that contains the
inserted hash and still has at most `L` entries; consequently any finite
sequence of `limitAdd` calls with the same limit starting from the empty
map yields a set of size at most `L` containing the most recent insertion. -/
theorem limitAdd_spec :
    (∀ (victim : Hash) (m : Finset Hash) (h : Hash) (L : Nat),
        0 < L → m.card ≤ L → StepOk L m victim →
        h ∈ limitAdd victim m h L ∧ (limitAdd victim m h L).card ≤ L) ∧
    (∀ (L : Nat) (tr : List (Hash × Hash)), 0 < L → ValidTrace L ∅ tr →
        (limitAddSeq L ∅ tr).card ≤ L ∧
        ∀ vh, tr.getLast? = some vh → vh.2 ∈ limitAddSeq L ∅ tr) :=
  ⟨limitAdd_bound, fun L tr hL hvt =>
    limitAddSeq_bound L hL tr ∅ (by simp) hvt⟩

theorem limitAdd_spec_witness :
    (5 ∈ limitAdd 0 (∅ : Finset Hash) 5 2 ∧ (limitAdd 0 (∅ : Finset Hash) 5 2).card ≤ 2) ∧
    ((limitAddSeq 2 ∅ [(0, 5), (0, 6), (5, 7)]).card ≤ 2 ∧
      ∀ vh, [(0, 5), (0, 6), (5, 7)].getLast? = some vh →
        vh.2 ∈ limitAddSeq 2 ∅ [(0, 5), (0, 6), (5, 7)]) :=
  ⟨limitAdd_spec.1 0 ∅ 5 2 (by decide) (by decide) (by decide),
   limitAdd_spec.2 2 [(0, 5), (0, 6), (5, 7)] (by decide) (by decide)⟩

theorem minPick_valid : PickValid minPick := fun m hm => by
  simp only [minPick, dif_pos hm]
  exact Finset.min'_mem m hm

/-- C10: every tx, block, ublock, inv, headers, or notfound message from a
peer with no entry in `peerStates` makes the handler return immediately:
the state is unchanged and no effect (no disconnect, no chain or mempool
submission) is produced. -/
theorem unknownPeer_noop (env : Env) (p : PeerId) (s : SMState)
    (hp : getPeerState s.peerStates p = none) :
    (∀ ptr pick txHash, handleTxMsg env ptr pick p txHash s = (s, [])) ∧
    (∀ pbr now bmsg, handleBlockMsg env pbr now p bmsg s = (s, [])) ∧
    (∀ pbr now ub, handleUBlockMsg env pbr now p ub s = (s, [])) ∧
    (∀ pick invVects, handleInvMsg env pick p invVects s = (s, [])) ∧
    (∀ headers, handleHeadersMsg env p headers s = (s, [])) ∧
    (∀ ok headers, handleOnlyHeadersMsg env ok p headers s = (s, [], false)) ∧
    (∀ invList, handleNotFoundMsg p invList s = (s, [])) ∧
    (∀ phu now ub, uRootHandleUBlockMsg env phu now p ub s = (s, [])) := by
  refine ⟨?_, ?_, ?_, ?_, ?_, ?_, ?_, ?_⟩
  · intro ptr pick txHash; simp [handleTxMsg, hp]
  · intro pbr now bmsg; simp [handleBlockMsg, hp]
  · intro pbr now ub; simp [handleUBlockMsg, hp]
  · intro pick invVects; simp [handleInvMsg, hp]
  · intro headers; simp [handleHeadersMsg, hp]
  · intro ok headers; simp [handleOnlyHeadersMsg, hp]
  · intro invList; simp [handleNotFoundMsg, hp]
  · intro phu now ub; simp [uRootHandleUBlockMsg, hp]

theorem unknownPeer_noop_witness :
    getPeerState testState.peerStates 7 = none ∧
    handleTxMsg testEnv ⟨[], none⟩ (fun _ => 0) 7 3 testState = (testState, []) ∧
    handleNotFoundMsg 7 [⟨.block, 3⟩] testState = (testState, []) := by
  have h := unknownPeer_noop testEnv 7 testState (by decide)
  exact ⟨by decide, h.1 ⟨[], none⟩ (fun _ => 0) 3, h.2.2.2.2.2.2.1 [⟨.block, 3⟩]⟩

/-- C9 counterexample: a `blockHandler` shutting down with
`utreexoRootVerifyMode` set (a main node in root-verify mode runs
`blockHandler` via `Start`) does not flush the chain caches, contradicting
the claim that the normal loop always flushes when `quit` closes. -/
theorem blockHandler_flush_counterexample :
    Effect.flushCachedState true ∉
      blockHandlerOnQuit { testState with utreexoRootVerifyMode := true } ∧
    blockHandlerOnQuit { testState with utreexoRootVerifyMode := true } =
      [Effect.wgDone] := by
  constructor
  · decide
  · decide

/-- C9 (amended): on `quit` the normal loop (`blockHandler`) flushes the
chain's cached state, before signalling done, if and only if the manager is
not in utreexo root-verify mode; the headers-only and root-verify loops
never flush on shutdown. -/
theorem blockHandlerOnQuit_flush_iff (s : SMState) :
    (Effect.flushCachedState true ∈ blockHandlerOnQuit s ↔
      s.utreexoRootVerifyMode = false) ∧
    blockHandlerOnQuit s =
      (if s.utreexoRootVerifyMode then [] else [Effect.flushCachedState true]) ++
        [Effect.wgDone] ∧
    headerHandlerOnQuit s = [Effect.wgDone] ∧
    uRootHintVerifyHandlerOnQuit s = [Effect.wgDone] ∧
    (∀ required, Effect.flushCachedState required ∉ headerHandlerOnQuit s) ∧
    (∀ required, Effect.flushCachedState required ∉ uRootHintVerifyHandlerOnQuit s) := by
  refine ⟨?_, ?_, rfl, rfl, ?_, ?_⟩
  · cases h : s.utreexoRootVerifyMode <;> simp [blockHandlerOnQuit, h]
  · cases h : s.utreexoRootVerifyMode <;> simp [blockHandlerOnQuit, h]
  · intro required; simp [headerHandlerOnQuit]
  · intro required; simp [uRootHintVerifyHandlerOnQuit]

/-- C6: a plain block from a known peer that the peer was never asked for
leads, outside regression mode, to a disconnect with no chain submission;
and in CSN mode a plain block is never submitted to the chain, the handler
dropping it unchanged when it is not in the unrequested-disconnect case. -/
theorem handleBlockMsg_unrequested_and_csn (env : Env) (pbr : ProcessBlockOutcome)
    (now : Nat) (p : PeerId) (bmsg : BlockMsgData) (s : SMState) (st : PeerSyncState)
    (hst : getPeerState s.peerStates p = some st) :
    (bmsg.hash ∉ st.requestedBlocks → env.regressionNet = false →
      handleBlockMsg env pbr now p bmsg s = (s, [Effect.disconnect p])) ∧
    (s.utreexoCSN = true → (bmsg.hash ∈ st.requestedBlocks ∨ env.regressionNet = true) →
      handleBlockMsg env pbr now p bmsg s = (s, [])) ∧
    (s.utreexoCSN = true →
      ∀ h fa, Effect.processBlockCall h fa ∉ (handleBlockMsg env pbr now p bmsg s).2) := by
  refine ⟨?_, ?_, ?_⟩
  · intro hmem hreg
    simp only [handleBlockMsg, hst]
    rw [if_pos ⟨hmem, hreg⟩]
  · intro hcsn hor
    have hneg : ¬(bmsg.hash ∉ st.requestedBlocks ∧ env.regressionNet = false) := by
      rcases hor with h | h
      · intro hc; exact hc.1 h
      · intro hc; rw [h] at hc; exact absurd hc.2 (by simp)
    simp only [handleBlockMsg, hst]
    rw [if_neg hneg, if_pos hcsn]
  · intro hcsn h fa
    by_cases hc : bmsg.hash ∉ st.requestedBlocks ∧ env.regressionNet = false
    · simp only [handleBlockMsg, hst]
      rw [if_pos hc]
      simp
    · simp only [handleBlockMsg, hst]
      rw [if_neg hc, if_pos hcsn]
      simp

theorem handleBlockMsg_unrequested_and_csn_witness :
    handleBlockMsg testEnv ⟨none, false, ⟨0, 0⟩, true⟩ 0 2
        ⟨42, false, none⟩ { c1State2 with utreexoCSN := true } =
      ({ c1State2 with utreexoCSN := true }, [Effect.disconnect 2]) ∧
    handleBlockMsg testEnv ⟨none, false, ⟨0, 0⟩, true⟩ 0 2
        ⟨42, false, none⟩ { c1State3 with utreexoCSN := true } =
      ({ c1State3 with utreexoCSN := true }, []) := by
  constructor
  · exact (handleBlockMsg_unrequested_and_csn testEnv ⟨none, false, ⟨0, 0⟩, true⟩ 0 2
      ⟨42, false, none⟩ { c1State2 with utreexoCSN := true } ⟨true, [], ∅, ∅⟩
      (by decide)).1 (by decide) (by decide)
  · exact (handleBlockMsg_unrequested_and_csn testEnv ⟨none, false, ⟨0, 0⟩, true⟩ 0 2
      ⟨42, false, none⟩ { c1State3 with utreexoCSN := true }
      ⟨true, [], ∅, {42}⟩ (by decide)).2.1 (by decide) (by decide)

theorem fetchHeaderBlocksLoop_rejectedTxns (env : Env) (ub : Bool) :
    ∀ (nodes : List HeaderNode) (idx : Nat) (s : SMState) (gd : List InvVect) (n : Nat),
      (fetchHeaderBlocksLoop env ub nodes idx s gd n).1.rejectedTxns = s.rejectedTxns
  | [], _, _, _, _ => rfl
  | node :: rest, idx, s, gd, n => by
    simp only [fetchHeaderBlocksLoop]
    repeat' split
    all_goals
      first
        | rfl
        | exact fetchHeaderBlocksLoop_rejectedTxns env ub rest _ _ _ _

theorem fetchHeaderBlocks_rejectedTxns (env : Env) (s : SMState) :
    (fetchHeaderBlocks env s).1.rejectedTxns = s.rejectedTxns := by
  cases hidx : s.startHeader with
  | none => simp [fetchHeaderBlocks, hidx]
  | some idx =>
    have h := fetchHeaderBlocksLoop_rejectedTxns env false (s.headerList.drop idx) idx s [] 0
    simp only [fetchHeaderBlocks, hidx]
    rcases hloop : fetchHeaderBlocksLoop env false (s.headerList.drop idx) idx s [] 0 with
      ⟨s', gd, pan⟩
    rw [hloop] at h
    repeat' split
    all_goals exact h

theorem fetchHeaderUBlocks_rejectedTxns (env : Env) (s : SMState) :
    (fetchHeaderUBlocks env s).1.rejectedTxns = s.rejectedTxns := by
  cases hidx : s.startHeader with
  | none => simp [fetchHeaderUBlocks, hidx]
  | some idx =>
    have h := fetchHeaderBlocksLoop_rejectedTxns env true (s.headerList.drop idx) idx s [] 0
    simp only [fetchHeaderUBlocks, hidx]
    rcases hloop : fetchHeaderBlocksLoop env true (s.headerList.drop idx) idx s [] 0 with
      ⟨s', gd, pan⟩
    rw [hloop] at h
    repeat' split
    all_goals exact h

set_option maxHeartbeats 1600000 in
theorem handleBlockMsg_accept_clears_rejected (env : Env) (pbr : ProcessBlockOutcome)
    (now : Nat) (p : PeerId) (bmsg : BlockMsgData) (s : SMState) (st : PeerSyncState)
    (hst : getPeerState s.peerStates p = some st)
    (hreq : bmsg.hash ∈ st.requestedBlocks ∨ env.regressionNet = true)
    (hcsn : s.utreexoCSN = false)
    (hcpwf : s.headersFirstMode = true → s.nextCheckpoint.isSome)
    (herr : pbr.errKind = none) (horph : pbr.isOrphan = false) :
    (handleBlockMsg env pbr now p bmsg s).1.rejectedTxns = ∅ := by
  have hneg : ¬(bmsg.hash ∉ st.requestedBlocks ∧ env.regressionNet = false) := by
    rcases hreq with h | h
    · intro hc; exact hc.1 h
    · intro hc; rw [h] at hc; exact absurd hc.2 (by simp)
  by_cases hhf : s.headersFirstMode = true
  · obtain ⟨cp, hcp⟩ := Option.isSome_iff_exists.mp (hcpwf hhf)
    by_cases hsp : s.syncPeer = some p
    · cases hhd : s.headerList.head? with
      | none =>
        simp [handleBlockMsg, hst, herr, horph, hhf, hhd, hcp, hsp, if_neg hneg, hcsn,
          fetchHeaderBlocks_rejectedTxns] <;> repeat' split <;>
            first
              | rfl
              | simp_all [fetchHeaderBlocks_rejectedTxns]
      | some fn =>
        by_cases hbh : bmsg.hash = fn.hash
        · by_cases hch : fn.hash = cp.hash
          · simp [handleBlockMsg, hst, herr, horph, hhf, hhd, hcp, hsp, hbh, hch,
              if_neg hneg, hcsn, fetchHeaderBlocks_rejectedTxns] <;> repeat' split <;>
            first
              | rfl
              | simp_all [fetchHeaderBlocks_rejectedTxns]
          · simp [handleBlockMsg, hst, herr, horph, hhf, hhd, hcp, hsp, hbh, hch,
              if_neg hneg, hcsn, fetchHeaderBlocks_rejectedTxns] <;> repeat' split <;>
            first
              | rfl
              | simp_all [fetchHeaderBlocks_rejectedTxns]
        · simp [handleBlockMsg, hst, herr, horph, hhf, hhd, hcp, hsp, hbh,
            if_neg hneg, hcsn, fetchHeaderBlocks_rejectedTxns] <;> repeat' split <;>
            first
              | rfl
              | simp_all [fetchHeaderBlocks_rejectedTxns]
    · cases hhd : s.headerList.head? with
      | none =>
        simp [handleBlockMsg, hst, herr, horph, hhf, hhd, hcp, hsp, if_neg hneg, hcsn,
          fetchHeaderBlocks_rejectedTxns] <;> repeat' split <;>
            first
              | rfl
              | simp_all [fetchHeaderBlocks_rejectedTxns]
      | some fn =>
        by_cases hbh : bmsg.hash = fn.hash
        · by_cases hch : fn.hash = cp.hash
          · simp [handleBlockMsg, hst, herr, horph, hhf, hhd, hcp, hsp, hbh, hch,
              if_neg hneg, hcsn, fetchHeaderBlocks_rejectedTxns] <;> repeat' split <;>
            first
              | rfl
              | simp_all [fetchHeaderBlocks_rejectedTxns]
          · simp [handleBlockMsg, hst, herr, horph, hhf, hhd, hcp, hsp, hbh, hch,
              if_neg hneg, hcsn, fetchHeaderBlocks_rejectedTxns] <;> repeat' split <;>
            first
              | rfl
              | simp_all [fetchHeaderBlocks_rejectedTxns]
        · simp [handleBlockMsg, hst, herr, horph, hhf, hhd, hcp, hsp, hbh,
            if_neg hneg, hcsn, fetchHeaderBlocks_rejectedTxns] <;> repeat' split <;>
            first
              | rfl
              | simp_all [fetchHeaderBlocks_rejectedTxns]
  · have hhf' : s.headersFirstMode = false := by simpa using hhf
    by_cases hsp : s.syncPeer = some p
    · simp [handleBlockMsg, hst, herr, horph, hhf', hsp, if_neg hneg, hcsn]
    · simp [handleBlockMsg, hst, herr, horph, hhf', hsp, if_neg hneg, hcsn]

set_option maxHeartbeats 1600000 in
/-- C7: a transaction whose hash is already in `rejectedTxns` is dropped
without touching the mempool or the requested maps; a transaction the
mempool rejects has its hash recorded in `rejectedTxns` (bounded at 1000)
and triggers a reject message to the sender; and a non-orphan accepted
block resets `rejectedTxns` to empty. -/
theorem rejectedTxns_spec :
    (∀ (env : Env) (ptr : ProcessTxOutcome) (pick : Finset Hash → Hash)
        (p : PeerId) (txHash : Hash) (s : SMState) (st : PeerSyncState),
      getPeerState s.peerStates p = some st → txHash ∈ s.rejectedTxns →
      handleTxMsg env ptr pick p txHash s = (s, [])) ∧
    (∀ (env : Env) (ptr : ProcessTxOutcome) (pick : Finset Hash → Hash)
        (p : PeerId) (txHash : Hash) (s : SMState) (st : PeerSyncState) (k : TxErrKind),
      getPeerState s.peerStates p = some st → txHash ∉ s.rejectedTxns →
      ptr.errKind = some k → PickValid pick → s.rejectedTxns.card ≤ maxRejectedTxns →
      txHash ∈ (handleTxMsg env ptr pick p txHash s).1.rejectedTxns ∧
      (handleTxMsg env ptr pick p txHash s).1.rejectedTxns.card ≤ maxRejectedTxns ∧
      Effect.pushReject p .cmdTx txHash ∈ (handleTxMsg env ptr pick p txHash s).2) ∧
    (∀ (env : Env) (pbr : ProcessBlockOutcome) (now : Nat) (p : PeerId)
        (bmsg : BlockMsgData) (s : SMState) (st : PeerSyncState),
      getPeerState s.peerStates p = some st →
      (bmsg.hash ∈ st.requestedBlocks ∨ env.regressionNet = true) →
      s.utreexoCSN = false →
      (s.headersFirstMode = true → s.nextCheckpoint.isSome) →
      pbr.errKind = none → pbr.isOrphan = false →
      (handleBlockMsg env pbr now p bmsg s).1.rejectedTxns = ∅) := by
  refine ⟨?_, ?_, ?_⟩
  · intro env ptr pick p txHash s st hst hrej
    simp only [handleTxMsg, hst]
    rw [if_pos hrej]
  · intro env ptr pick p txHash s st k hst hrej herr hpick hcard
    have hok : StepOk maxRejectedTxns s.rejectedTxns (pick s.rejectedTxns) := by
      intro hgt
      rcases Finset.eq_empty_or_nonempty s.rejectedTxns with he | hne
      · exact Or.inr he
      · exact Or.inl (hpick _ hne)
    have hb := limitAdd_bound (pick s.rejectedTxns) s.rejectedTxns txHash maxRejectedTxns
      (by norm_num [maxRejectedTxns]) hcard hok
    simp only [handleTxMsg, hst]
    rw [if_neg hrej, herr]
    exact ⟨hb.1, hb.2, by simp⟩
  · intro env pbr now p bmsg s st hst hreq hcsn hcpwf herr horph
    exact handleBlockMsg_accept_clears_rejected env pbr now p bmsg s st hst hreq hcsn
      hcpwf herr horph

theorem rejectedTxns_spec_witness :
    (handleTxMsg testEnv ⟨[], some .rule⟩ minPick 2 8 { c1State2 with rejectedTxns := {8} } =
      ({ c1State2 with rejectedTxns := {8} }, [])) ∧
    5 ∈ (handleTxMsg testEnv ⟨[], some .rule⟩ minPick 2 5 c1State2).1.rejectedTxns ∧
    (handleTxMsg testEnv ⟨[], some .rule⟩ minPick 2 5 c1State2).1.rejectedTxns.card ≤
      maxRejectedTxns ∧
    Effect.pushReject 2 .cmdTx 5 ∈
      (handleTxMsg testEnv ⟨[], some .rule⟩ minPick 2 5 c1State2).2 :=
  ⟨rejectedTxns_spec.1 testEnv ⟨[], some .rule⟩ minPick 2 8
      { c1State2 with rejectedTxns := {8} } ⟨true, [], ∅, ∅⟩ (by decide) (by decide),
   (rejectedTxns_spec.2.1 testEnv ⟨[], some .rule⟩ minPick 2 5 c1State2 ⟨true, [], ∅, ∅⟩
      .rule (by decide) (by decide) rfl minPick_valid (by decide))⟩

theorem zip_all_beq_eq : ∀ (a b : List Hash), a.length = b.length →
    ((List.zip a b).all fun rr => rr.1 == rr.2) = true → a = b
  | [], [], _, _ => rfl
  | [], _ :: _, hl, _ => by simp at hl
  | _ :: _, [], hl, _ => by simp at hl
  | x :: xs, y :: ys, hl, hall => by
    simp only [List.zip_cons_cons, List.all_cons, Bool.and_eq_true, beq_iff_eq] at hall
    obtain ⟨hxy, hrest⟩ := hall
    have := zip_all_beq_eq xs ys (by simpa using hl) hrest
    simp [hxy, this]

theorem zip_self_all_beq : ∀ a : List Hash,
    ((List.zip a a).all fun rr => rr.1 == rr.2) = true
  | [] => rfl
  | x :: xs => by
    simp only [List.zip_cons_cons, List.all_cons, beq_self_eq_true, Bool.true_and]
    exact zip_self_all_beq xs

theorem UtreexoViewpoint.Equal_eq_true_iff (u : UtreexoViewpoint) (r : List Hash) :
    u.Equal r = true ↔ u.roots = r := by
  constructor
  · intro h
    unfold UtreexoViewpoint.Equal at h
    by_cases hl : u.roots.length = r.length
    · rw [if_neg (by simpa using hl)] at h
      exact (zip_all_beq_eq r u.roots hl.symm h).symm
    · rw [if_pos (by simpa using hl)] at h
      exact absurd h (by simp)
  · intro h
    subst h
    unfold UtreexoViewpoint.Equal
    rw [if_neg (by simp)]
    exact zip_self_all_beq u.roots

theorem lookupUTree_filter_ne : ∀ (l : List (Int × UTreeState)) (k : Int),
    lookupUTree (l.filter fun e => !(e.1 == k)) k = none
  | [], _ => rfl
  | (k', v) :: rest, k => by
    by_cases h : k' = k
    · have hb : (k' == k) = true := by simp [h]
      simpa [List.filter_cons, hb] using lookupUTree_filter_ne rest k
    · have hb : (k' == k) = false := by simp [h]
      simp only [List.filter_cons, hb, Bool.not_false, if_true]
      simp only [lookupUTree, if_neg h]
      exact lookupUTree_filter_ne rest k

theorem lookupUTree_removeUTree (l : List (Int × UTreeState)) (k : Int) :
    lookupUTree (removeUTree l k) k = none :=
  lookupUTree_filter_ne l k

/-- C2: a ublock handled by the root-verify worker whose height equals its
range's target root-hint height yields a report whose `validated` flag is
true exactly when the accumulator view's roots equal the target's roots,
and the range's entry is removed from `uTreeMap`; a ublock whose range-start
key has no `uTreeMap` entry makes the worker panic. -/
theorem uRootHandleUBlock_spec (env : Env) (phu : ProcessHeaderUBlockOutcome) (now : Nat)
    (p : PeerId) (ub : UBlockMsgData) (s : SMState) (st : PeerSyncState) (bh : Int)
    (hst : getPeerState s.peerStates p = some st)
    (hreq : ub.hash ∈ st.requestedBlocks ∨ env.regressionNet = true)
    (hlk : env.lookupNode ub.hash = some bh) :
    (lookupUTree s.uTreeMap
        (match env.findPreviousUtreexoRootHint bh with
         | some u => u.height
         | none => 0) = none →
      (uRootHandleUBlockMsg env phu now p ub s).2 = [Effect.panicked]) ∧
    (∀ uState,
      lookupUTree s.uTreeMap
        (match env.findPreviousUtreexoRootHint bh with
         | some u => u.height
         | none => 0) = some uState →
      phu.procErr = false → phu.mainChain = true →
      ub.height = uState.rootToVerify.height →
      Effect.report (phu.viewAfter.Equal uState.rootToVerify.roots)
          uState.rootToVerify.height ∈ (uRootHandleUBlockMsg env phu now p ub s).2 ∧
      lookupUTree (uRootHandleUBlockMsg env phu now p ub s).1.uTreeMap
        (match env.findPreviousUtreexoRootHint bh with
         | some u => u.height
         | none => 0) = none ∧
      (phu.viewAfter.Equal uState.rootToVerify.roots = true ↔
        phu.viewAfter.roots = uState.rootToVerify.roots)) := by
  have hneg : ¬(ub.hash ∉ st.requestedBlocks ∧ env.regressionNet = false) := by
    rcases hreq with h | h
    · intro hc; exact hc.1 h
    · intro hc; rw [h] at hc; exact absurd hc.2 (by simp)
  constructor
  · intro hnone
    simp [uRootHandleUBlockMsg, hst, if_neg hneg, hlk, hnone]
  · intro uState hu hperr hmain hh
    simp only [uRootHandleUBlockMsg, hst, if_neg hneg, hlk]
    simp only [hu, hperr, hmain, hh]
    by_cases heq : phu.viewAfter.Equal uState.rootToVerify.roots = true
    · refine ⟨?_, ?_, UtreexoViewpoint.Equal_eq_true_iff _ _⟩
      · simp [heq]
      · simp [heq, lookupUTree_removeUTree]
    · have heq' : phu.viewAfter.Equal uState.rootToVerify.roots = false := by
        simpa using heq
      refine ⟨?_, ?_, UtreexoViewpoint.Equal_eq_true_iff _ _⟩
      · simp [heq']
      · simp [heq', lookupUTree_removeUTree]

theorem uRootHandleUBlock_spec_witness :
    Effect.report (c2Phu.viewAfter.Equal c2UState.rootToVerify.roots)
        c2UState.rootToVerify.height ∈
      (uRootHandleUBlockMsg c2Env c2Phu 0 2 ⟨42, 10, false, none⟩ c2State).2 ∧
    lookupUTree
      (uRootHandleUBlockMsg c2Env c2Phu 0 2 ⟨42, 10, false, none⟩ c2State).1.uTreeMap
      0 = none := by
  have h := (uRootHandleUBlock_spec c2Env c2Phu 0 2 ⟨42, 10, false, none⟩ c2State
      ⟨true, [], ∅, {42}⟩ 5 (by decide) (Or.inl (by decide)) rfl).2 c2UState
      (by decide) rfl rfl (by decide)
  exact ⟨h.1, h.2.1⟩

set_option maxHeartbeats 1600000 in
/-- C8: an accepted headers-first block whose hash is the front header and
equals `nextCheckpoint.hash`: when a later checkpoint exists the handler
installs it as `nextCheckpoint` and requests the next header batch while
staying in headers-first mode; otherwise it leaves headers-first mode,
clears the header list, and requests blocks to the zero stop hash. -/
theorem handleBlockMsg_checkpoint_spec (env : Env) (pbr : ProcessBlockOutcome)
    (now : Nat) (p : PeerId) (bmsg : BlockMsgData) (s : SMState) (st : PeerSyncState)
    (fn : HeaderNode) (cp : Checkpoint)
    (hst : getPeerState s.peerStates p = some st)
    (hreq : bmsg.hash ∈ st.requestedBlocks ∨ env.regressionNet = true)
    (hcsn : s.utreexoCSN = false)
    (hhf : s.headersFirstMode = true)
    (hfront : s.headerList.head? = some fn)
    (hfh : bmsg.hash = fn.hash)
    (hcp : s.nextCheckpoint = some cp)
    (hcph : fn.hash = cp.hash)
    (herr : pbr.errKind = none) (horph : pbr.isOrphan = false) :
    (∀ ncp, findNextHeaderCheckpoint env.checkpoints cp.height = some ncp →
      (handleBlockMsg env pbr now p bmsg s).1.nextCheckpoint = some ncp ∧
      (handleBlockMsg env pbr now p bmsg s).1.headersFirstMode = true ∧
      Effect.pushGetHeaders p [cp.hash] ncp.hash ∈ (handleBlockMsg env pbr now p bmsg s).2) ∧
    (findNextHeaderCheckpoint env.checkpoints cp.height = none →
      (handleBlockMsg env pbr now p bmsg s).1.headersFirstMode = false ∧
      (handleBlockMsg env pbr now p bmsg s).1.headerList = [] ∧
      Effect.pushGetBlocks p [bmsg.hash] zeroHash ∈ (handleBlockMsg env pbr now p bmsg s).2) := by
  have hneg : ¬(bmsg.hash ∉ st.requestedBlocks ∧ env.regressionNet = false) := by
    rcases hreq with h | h
    · intro hc; exact hc.1 h
    · intro hc; rw [h] at hc; exact absurd hc.2 (by simp)
  have hneg2 : ¬(cp.hash ∉ st.requestedBlocks ∧ env.regressionNet = false) := by
    rw [← hcph, ← hfh]; exact hneg
  constructor
  · intro ncp hncp
    by_cases hsp : s.syncPeer = some p <;>
      simp [handleBlockMsg, hst, if_neg hneg, hneg2, hcsn, hhf, hfront, hfh, hcp, hcph,
        herr, horph, hncp, hsp]
  · intro hnone
    by_cases hsp : s.syncPeer = some p <;>
      simp [handleBlockMsg, hst, if_neg hneg, hneg2, hcsn, hhf, hfront, hfh, hcp, hcph,
        herr, horph, hnone, hsp]

theorem handleBlockMsg_checkpoint_spec_witness :
    (handleBlockMsg c8Env ⟨none, false, ⟨50, 100⟩, true⟩ 0 2 ⟨100, false, none⟩
        c8State).1.nextCheckpoint = some ⟨80, 200⟩ ∧
    (handleBlockMsg c8Env ⟨none, false, ⟨50, 100⟩, true⟩ 0 2 ⟨100, false, none⟩
        c8State).1.headersFirstMode = true ∧
    Effect.pushGetHeaders 2 [100] 200 ∈
      (handleBlockMsg c8Env ⟨none, false, ⟨50, 100⟩, true⟩ 0 2 ⟨100, false, none⟩
        c8State).2 :=
  (handleBlockMsg_checkpoint_spec c8Env ⟨none, false, ⟨50, 100⟩, true⟩ 0 2
    ⟨100, false, none⟩ c8State ⟨true, [], ∅, {100}⟩ ⟨50, 100⟩ ⟨50, 100⟩
    (by decide) (Or.inl (by decide)) (by decide) (by decide) (by decide) (by decide)
    (by decide) (by decide) rfl rfl).1 ⟨80, 200⟩ (by decide)

theorem if_gt_eq_max (a b : Int) : (if a > b then a else b) = max a b := by
  rcases le_or_lt a b with h | h
  · rw [if_neg (not_lt.mpr h), max_eq_right h]
  · rw [if_pos h, max_eq_left h.le]

set_option maxHeartbeats 1600000 in
/-- C5: a stall sample with a sync peer and more than 3 minutes without
progress clears the sync peer's pending tx/block requests from the global
maps, disconnects the sync peer iff `max(lastBlock, startingHeight)`
exceeds the chain tip, unsets the sync peer (resetting header state in
headers-first mode) and runs `startSync`; with no sync peer or within the
stall window nothing changes. -/
theorem handleStallSample_spec (env : Env) (now choice : Nat) (s : SMState) :
    (s.shutdown = false → s.syncPeer = none →
      handleStallSample env now choice s = (s, [])) ∧
    (s.shutdown = false → now - s.lastProgressTime ≤ maxStallDuration →
      handleStallSample env now choice s = (s, [])) ∧
    (∀ sp st, s.shutdown = false → s.syncPeer = some sp →
      getPeerState s.peerStates sp = some st →
      now - s.lastProgressTime > maxStallDuration →
      handleStallSample env now choice s =
        (let s1 := clearRequestedState s st
         let s2 := if s1.headersFirstMode = true then
             resetHeaderState env env.bestHash env.bestHeight s1
           else s1
         let s3 := { s2 with syncPeer := none }
         let r := startSync env now choice s3
         (r.1,
          (if max (env.peerInfo sp).lastBlock (env.peerInfo sp).startingHeight >
              env.bestHeight then
            [Effect.disconnect sp]
          else []) ++ r.2))) := by
  refine ⟨?_, ?_, ?_⟩
  · intro hsh hsp
    simp [handleStallSample, hsh, hsp]
  · intro hsh htime
    cases hsp : s.syncPeer with
    | none => simp [handleStallSample, hsh, hsp]
    | some sp => simp [handleStallSample, hsh, hsp, htime]
  · intro sp st hsh hsp hstt htime
    simp only [handleStallSample, hsh, hsp, hstt, Bool.false_eq_true, if_false]
    rw [if_neg (not_le.mpr htime)]
    simp only [updateSyncPeer, shouldDCStalledSyncPeer, clearRequestedState, hsp]
    simp only [if_gt_eq_max]
    simp

theorem handleStallSample_spec_witness :
    handleStallSample testEnv 200 0 c1State3 =
      (let s1 := clearRequestedState c1State3 ⟨true, [], ∅, ∅⟩
       let s2 := if s1.headersFirstMode = true then
           resetHeaderState testEnv testEnv.bestHash testEnv.bestHeight s1
         else s1
       let s3 := { s2 with syncPeer := none }
       let r := startSync testEnv 200 0 s3
       (r.1,
        (if max (testEnv.peerInfo 1).lastBlock (testEnv.peerInfo 1).startingHeight >
            testEnv.bestHeight then
          [Effect.disconnect 1]
        else []) ++ r.2)) :=
  (handleStallSample_spec testEnv 200 0 c1State3).2.2 1 ⟨true, [], ∅, ∅⟩
    (by decide) (by decide) (by decide) (by decide)

theorem limitAdd_card_le (pick : Finset Hash → Hash) (hpick : PickValid pick)
    (m : Finset Hash) (h : Hash) (L : Nat) (hL : 0 < L) (hm : m.card ≤ L) :
    (limitAdd (pick m) m h L).card ≤ L := by
  refine (limitAdd_bound (pick m) m h L hL hm ?_).2
  intro _
  rcases Finset.eq_empty_or_nonempty m with he | hne
  · exact Or.inr he
  · exact Or.inl (hpick _ hne)

theorem maxRequestedBlocks_pos : 0 < maxRequestedBlocks := by
  norm_num [maxRequestedBlocks, maxInvPerMsg]

theorem maxRequestedTxns_pos : 0 < maxRequestedTxns := by
  norm_num [maxRequestedTxns, maxInvPerMsg]

theorem maxRejectedTxns_pos : 0 < maxRejectedTxns := by
  norm_num [maxRejectedTxns]

theorem invDrain_bounds (env : Env) (pick : Finset Hash → Hash) (p : PeerId)
    (hpick : PickValid pick) :
    ∀ (queue : List InvVect) (n : Nat) (s : SMState) (st : PeerSyncState)
      (gd : List InvVect),
      s.rejectedTxns.card ≤ maxRejectedTxns →
      s.requestedTxns.card ≤ maxRequestedTxns →
      s.requestedBlocks.card ≤ maxRequestedBlocks →
      (invDrain env pick p queue n s st gd).1.rejectedTxns.card ≤ maxRejectedTxns ∧
      (invDrain env pick p queue n s st gd).1.requestedTxns.card ≤ maxRequestedTxns ∧
      (invDrain env pick p queue n s st gd).1.requestedBlocks.card ≤ maxRequestedBlocks
  | [], _, _, _, _, h1, h2, h3 => ⟨h1, h2, h3⟩
  | iv :: rest, n, s, st, gd, h1, h2, h3 => by
    rcases iv with ⟨ty, hh⟩
    cases ty <;>
      simp only [invDrain] <;>
      repeat' split
    all_goals
      first
        | exact ⟨h1, h2, h3⟩
        | exact ⟨h1, h2, limitAdd_card_le pick hpick _ _ _ maxRequestedBlocks_pos h3⟩
        | exact ⟨h1, limitAdd_card_le pick hpick _ _ _ maxRequestedTxns_pos h2, h3⟩
        | exact invDrain_bounds env pick p hpick rest _ _ _ _ h1 h2 h3
        | exact invDrain_bounds env pick p hpick rest _ _ _ _ h1 h2
            (limitAdd_card_le pick hpick _ _ _ maxRequestedBlocks_pos h3)
        | exact invDrain_bounds env pick p hpick rest _ _ _ _ h1
            (limitAdd_card_le pick hpick _ _ _ maxRequestedTxns_pos h2) h3

theorem handleTxMsg_bounds (env : Env) (ptr : ProcessTxOutcome)
    (pick : Finset Hash → Hash) (p : PeerId) (txHash : Hash) (s : SMState)
    (hpick : PickValid pick)
    (h1 : s.rejectedTxns.card ≤ maxRejectedTxns)
    (h2 : s.requestedTxns.card ≤ maxRequestedTxns)
    (h3 : s.requestedBlocks.card ≤ maxRequestedBlocks) :
    (handleTxMsg env ptr pick p txHash s).1.rejectedTxns.card ≤ maxRejectedTxns ∧
    (handleTxMsg env ptr pick p txHash s).1.requestedTxns.card ≤ maxRequestedTxns ∧
    (handleTxMsg env ptr pick p txHash s).1.requestedBlocks.card ≤ maxRequestedBlocks := by
  have herase : (s.requestedTxns.erase txHash).card ≤ maxRequestedTxns :=
    le_trans (Finset.card_erase_le) h2
  simp only [handleTxMsg]
  repeat' split
  all_goals
    first
      | exact ⟨h1, h2, h3⟩
      | exact ⟨h1, herase, h3⟩
      | exact ⟨limitAdd_card_le pick hpick _ _ _ maxRejectedTxns_pos h1, herase, h3⟩

theorem handleInvMsg_bounds (env : Env) (pick : Finset Hash → Hash) (p : PeerId)
    (invVects : List InvVect) (s : SMState) (hpick : PickValid pick)
    (h1 : s.rejectedTxns.card ≤ maxRejectedTxns)
    (h2 : s.requestedTxns.card ≤ maxRequestedTxns)
    (h3 : s.requestedBlocks.card ≤ maxRequestedBlocks) :
    (handleInvMsg env pick p invVects s).1.rejectedTxns.card ≤ maxRejectedTxns ∧
    (handleInvMsg env pick p invVects s).1.requestedTxns.card ≤ maxRequestedTxns ∧
    (handleInvMsg env pick p invVects s).1.requestedBlocks.card ≤ maxRequestedBlocks := by
  simp only [handleInvMsg]
  repeat' split
  all_goals
    first
      | exact ⟨h1, h2, h3⟩
      | exact invDrain_bounds env pick p hpick _ _ _ _ _ h1 h2 h3

theorem fetchHeaderBlocksLoop_card (env : Env) (ub : Bool) :
    ∀ (nodes : List HeaderNode) (idx : Nat) (s : SMState) (gd : List InvVect) (n : Nat),
      n < maxInvPerMsg →
      (fetchHeaderBlocksLoop env ub nodes idx s gd n).1.requestedBlocks.card ≤
        s.requestedBlocks.card + (maxInvPerMsg - n)
  | [], _, s, _, n, _ => by
    simp only [fetchHeaderBlocksLoop]
    exact Nat.le_add_right _ _
  | node :: rest, idx, s, gd, n, hn => by
    have hins := Finset.card_insert_le node.hash s.requestedBlocks
    simp only [fetchHeaderBlocksLoop]
    cases hhv : (haveInventory env
        ⟨if ub = true then InvType.ublock else InvType.block, node.hash⟩).getD false with
    | false =>
      rw [if_pos (by decide)]
      cases hsp : s.syncPeer with
      | none => dsimp only; exact Nat.le_add_right _ _
      | some sp =>
        dsimp only
        cases hgp : getPeerState s.peerStates sp with
        | none => dsimp only; exact Nat.le_add_right _ _
        | some spst =>
          dsimp only
          by_cases hb : n + 1 ≥ maxInvPerMsg
          · rw [if_pos hb]
            dsimp only
            omega
          · rw [if_neg hb]
            refine le_trans
              (fetchHeaderBlocksLoop_card env ub rest (idx + 1) _ _ (n + 1) (by omega)) ?_
            dsimp only
            omega
    | true =>
      rw [if_neg (by decide)]
      by_cases hb : n ≥ maxInvPerMsg
      · rw [if_pos hb]
        exact Nat.le_add_right _ _
      · rw [if_neg hb]
        exact fetchHeaderBlocksLoop_card env ub rest (idx + 1) _ gd n hn

theorem fetchHeaderBlocks_card (env : Env) (s : SMState) :
    (fetchHeaderBlocks env s).1.requestedBlocks.card ≤
      s.requestedBlocks.card + maxInvPerMsg := by
  cases hidx : s.startHeader with
  | none =>
    simp only [fetchHeaderBlocks, hidx]
    exact Nat.le_add_right _ _
  | some idx =>
    have h := fetchHeaderBlocksLoop_card env false (s.headerList.drop idx) idx s [] 0
      (by norm_num [maxInvPerMsg])
    simp only [fetchHeaderBlocks, hidx]
    rcases hloop : fetchHeaderBlocksLoop env false (s.headerList.drop idx) idx s [] 0 with
      ⟨s', gd, pan⟩
    rw [hloop] at h
    simp only [Nat.sub_zero] at h
    repeat' split
    all_goals exact h

theorem fetchHeaderUBlocks_card (env : Env) (s : SMState) :
    (fetchHeaderUBlocks env s).1.requestedBlocks.card ≤
      s.requestedBlocks.card + maxInvPerMsg := by
  cases hidx : s.startHeader with
  | none =>
    simp only [fetchHeaderUBlocks, hidx]
    exact Nat.le_add_right _ _
  | some idx =>
    have h := fetchHeaderBlocksLoop_card env true (s.headerList.drop idx) idx s [] 0
      (by norm_num [maxInvPerMsg])
    simp only [fetchHeaderUBlocks, hidx]
    rcases hloop : fetchHeaderBlocksLoop env true (s.headerList.drop idx) idx s [] 0 with
      ⟨s', gd, pan⟩
    rw [hloop] at h
    simp only [Nat.sub_zero] at h
    repeat' split
    all_goals exact h

/-- C4 counterexample: with the global `requestedBlocks` exactly at
`MAX_INV_PER_MSG` entries and one unfetched header left, `fetchHeaderBlocks`
(which inserts directly, without `limitAdd`) pushes the map over the bound. -/
theorem requestedBlocks_bound_counterexample :
    c4State.requestedBlocks.card ≤ maxRequestedBlocks ∧
    maxRequestedBlocks < (fetchHeaderBlocks testEnv c4State).1.requestedBlocks.card := by
  constructor
  · rw [show c4State.requestedBlocks = Finset.range maxRequestedBlocks from rfl,
      Finset.card_range]
  · have hres : (fetchHeaderBlocks testEnv c4State).1.requestedBlocks =
        insert 50000 (Finset.range maxRequestedBlocks) := rfl
    rw [hres, Finset.card_insert_of_not_mem
      (by simp [Finset.mem_range, maxRequestedBlocks, maxInvPerMsg]), Finset.card_range]
    norm_num [maxRequestedBlocks, maxInvPerMsg]

/-- C4 (amended): the tx and inv handlers preserve all three bounds
(`|rejectedTxns| ≤ 1000`, `|requestedTxns| ≤ MAX_INV_PER_MSG`,
`|requestedBlocks| ≤ MAX_INV_PER_MSG`) — every insertion they make goes
through `limitAdd`; `fetchHeaderBlocks` / `fetchHeaderUBlocks`, by contrast,
insert block hashes directly, guaranteeing only
`|requestedBlocks'| ≤ |requestedBlocks| + MAX_INV_PER_MSG`, so after a
headers-first block fetch the `requestedBlocks` bound need not hold. -/
theorem boundedMaps_spec :
    (∀ (env : Env) (ptr : ProcessTxOutcome) (pick : Finset Hash → Hash)
        (p : PeerId) (txHash : Hash) (s : SMState),
      PickValid pick →
      s.rejectedTxns.card ≤ maxRejectedTxns →
      s.requestedTxns.card ≤ maxRequestedTxns →
      s.requestedBlocks.card ≤ maxRequestedBlocks →
      (handleTxMsg env ptr pick p txHash s).1.rejectedTxns.card ≤ maxRejectedTxns ∧
      (handleTxMsg env ptr pick p txHash s).1.requestedTxns.card ≤ maxRequestedTxns ∧
      (handleTxMsg env ptr pick p txHash s).1.requestedBlocks.card ≤ maxRequestedBlocks) ∧
    (∀ (env : Env) (pick : Finset Hash → Hash) (p : PeerId) (invVects : List InvVect)
        (s : SMState),
      PickValid pick →
      s.rejectedTxns.card ≤ maxRejectedTxns →
      s.requestedTxns.card ≤ maxRequestedTxns →
      s.requestedBlocks.card ≤ maxRequestedBlocks →
      (handleInvMsg env pick p invVects s).1.rejectedTxns.card ≤ maxRejectedTxns ∧
      (handleInvMsg env pick p invVects s).1.requestedTxns.card ≤ maxRequestedTxns ∧
      (handleInvMsg env pick p invVects s).1.requestedBlocks.card ≤ maxRequestedBlocks) ∧
    (∀ (env : Env) (s : SMState),
      (fetchHeaderBlocks env s).1.requestedBlocks.card ≤
        s.requestedBlocks.card + maxInvPerMsg ∧
      (fetchHeaderUBlocks env s).1.requestedBlocks.card ≤
        s.requestedBlocks.card + maxInvPerMsg) :=
  ⟨fun env ptr pick p txHash s hpick h1 h2 h3 =>
      handleTxMsg_bounds env ptr pick p txHash s hpick h1 h2 h3,
   fun env pick p invVects s hpick h1 h2 h3 =>
      handleInvMsg_bounds env pick p invVects s hpick h1 h2 h3,
   fun env s => ⟨fetchHeaderBlocks_card env s, fetchHeaderUBlocks_card env s⟩⟩

theorem boundedMaps_spec_witness :
    ((handleInvMsg testEnv minPick 2 [⟨.block, 42⟩] c1State2).1.rejectedTxns.card ≤
      maxRejectedTxns ∧
     (handleInvMsg testEnv minPick 2 [⟨.block, 42⟩] c1State2).1.requestedTxns.card ≤
      maxRequestedTxns ∧
     (handleInvMsg testEnv minPick 2 [⟨.block, 42⟩] c1State2).1.requestedBlocks.card ≤
      maxRequestedBlocks) :=
  boundedMaps_spec.2.1 testEnv minPick 2 [⟨.block, 42⟩] c1State2 minPick_valid
    (by decide) (by decide) (by decide)

theorem getPeerState_mem : ∀ (ps : List (PeerId × PeerSyncState)) (p : PeerId)
    (st : PeerSyncState), getPeerState ps p = some st → (p, st) ∈ ps
  | [], _, _, h => by simp [getPeerState] at h
  | (q, st') :: rest, p, st, h => by
    by_cases hq : q = p
    · subst hq
      have h' : st' = st := by simpa [getPeerState] using h
      subst h'
      exact List.mem_cons_self _ _
    · simp only [getPeerState, if_neg hq] at h
      exact List.mem_cons_of_mem _ (getPeerState_mem rest p st h)

theorem mem_setPeerState (ps : List (PeerId × PeerSyncState)) (p : PeerId)
    (st : PeerSyncState) (pr : PeerId × PeerSyncState)
    (h : pr ∈ setPeerState ps p st) : pr = (p, st) ∨ (pr ∈ ps ∧ pr.1 ≠ p) := by
  unfold setPeerState at h
  obtain ⟨q, hq, hfq⟩ := List.mem_map.mp h
  by_cases hqp : q.1 = p
  · rw [if_pos hqp] at hfq
    exact Or.inl hfq.symm
  · rw [if_neg hqp] at hfq
    subst hfq
    exact Or.inr ⟨hq, hqp⟩

theorem notFoundLoop_spec : ∀ (invs : List InvVect) (st : PeerSyncState)
    (rb rt : Finset Hash),
    ((notFoundLoop invs st rb rt).1.requestedBlocks ⊆ st.requestedBlocks) ∧
    (∀ h, h ∈ rb → h ∉ st.requestedBlocks → h ∈ (notFoundLoop invs st rb rt).2.1) ∧
    (∀ h, h ∈ (notFoundLoop invs st rb rt).1.requestedBlocks → h ∈ rb →
      h ∈ (notFoundLoop invs st rb rt).2.1)
  | [], st, rb, rt =>
    ⟨Finset.Subset.refl _, fun _ hm _ => hm, fun _ _ hm => hm⟩
  | iv :: rest, st, rb, rt => by
    rcases iv with ⟨ty, a⟩
    cases ty
    case other => exact notFoundLoop_spec rest st rb rt
    case witnessTx | tx =>
      simp only [notFoundLoop]
      split
      · rename_i hmem
        obtain ⟨ih1, ih2, ih3⟩ :=
          notFoundLoop_spec rest { st with requestedTxns := st.requestedTxns.erase a }
            rb (rt.erase a)
        exact ⟨ih1, ih2, ih3⟩
      · exact notFoundLoop_spec rest st rb rt
    all_goals
      simp only [notFoundLoop]
      split
      · rename_i hmem
        obtain ⟨ih1, ih2, ih3⟩ :=
          notFoundLoop_spec rest { st with requestedBlocks := st.requestedBlocks.erase a }
            (rb.erase a) rt
        refine ⟨?_, ?_, ?_⟩
        · exact ih1.trans (Finset.erase_subset _ _)
        · intro h hrb hnst
          have hna : h ≠ a := fun he => hnst (he ▸ hmem)
          exact ih2 h (Finset.mem_erase.mpr ⟨hna, hrb⟩)
            (fun hc => hnst (Finset.mem_of_mem_erase hc))
        · intro h hres hrb
          have hst' : h ∈ st.requestedBlocks.erase a := ih1 hres
          have hna : h ≠ a := (Finset.mem_erase.mp hst').1
          exact ih3 h hres (Finset.mem_erase.mpr ⟨hna, hrb⟩)
      · exact notFoundLoop_spec rest st rb rt

theorem ReqBlocksInvOn_erase (ps : List (PeerId × PeerSyncState)) (rb : Finset Hash)
    (p : PeerId) (st : PeerSyncState) (bh : Hash)
    (hst : getPeerState ps p = some st) (hinv : ReqBlocksInvOn ps rb)
    (hmem : bh ∈ st.requestedBlocks) :
    ReqBlocksInvOn
      (setPeerState ps p { st with requestedBlocks := st.requestedBlocks.erase bh })
      (rb.erase bh) := by
  have hps := getPeerState_mem ps p st hst
  intro pr hpr h hh
  rcases mem_setPeerState _ _ _ _ hpr with hpe | ⟨hpm, hpne⟩
  · subst hpe
    have hste : h ∈ st.requestedBlocks.erase bh := hh
    have hna : h ≠ bh := (Finset.mem_erase.mp hste).1
    have hstm : h ∈ st.requestedBlocks := Finset.mem_of_mem_erase hste
    have hglob : h ∈ rb := (hinv (p, st) hps h hstm).1
    refine ⟨Finset.mem_erase.mpr ⟨hna, hglob⟩, ?_⟩
    intro qr hqr hq
    rcases mem_setPeerState _ _ _ _ hqr with hqe | ⟨hqm, hqne⟩
    · subst hqe; rfl
    · exact (hinv (p, st) hps h hstm).2 qr hqm hq
  · have hglob : h ∈ rb := (hinv pr hpm h hh).1
    have hna : h ≠ bh := by
      intro he
      subst he
      exact hpne ((hinv (p, st) hps h hmem).2 pr hpm hh)
    refine ⟨Finset.mem_erase.mpr ⟨hna, hglob⟩, ?_⟩
    intro qr hqr hq
    rcases mem_setPeerState _ _ _ _ hqr with hqe | ⟨hqm, hqne⟩
    · subst hqe
      have hstm : h ∈ st.requestedBlocks := Finset.mem_of_mem_erase hq
      exact ((hinv pr hpm h hh).2 (p, st) hps hstm).symm ▸ rfl
    · exact (hinv pr hpm h hh).2 qr hqm hq

theorem handleNotFoundMsg_invariant (p : PeerId) (invList : List InvVect) (s : SMState)
    (hinv : ReqBlocksInvariant s) :
    ReqBlocksInvariant (handleNotFoundMsg p invList s).1 := by
  unfold handleNotFoundMsg
  cases hst : getPeerState s.peerStates p with
  | none => exact hinv
  | some st =>
    dsimp only
    obtain ⟨hsub, hglob, hpair⟩ := notFoundLoop_spec invList st s.requestedBlocks s.requestedTxns
    have hps := getPeerState_mem s.peerStates p st hst
    intro pr hpr h hh
    rcases mem_setPeerState _ _ _ _ hpr with hpe | ⟨hpm, hpne⟩
    · subst hpe
      have hstm : h ∈ st.requestedBlocks := hsub hh
      have hglobpre : h ∈ s.requestedBlocks := (hinv (p, st) hps h hstm).1
      refine ⟨hpair h hh hglobpre, ?_⟩
      intro qr hqr hq
      rcases mem_setPeerState _ _ _ _ hqr with hqe | ⟨hqm, hqne⟩
      · subst hqe; rfl
      · exact (hinv (p, st) hps h hstm).2 qr hqm hq
    · have hglobpre : h ∈ s.requestedBlocks := (hinv pr hpm h hh).1
      have hnst : h ∉ st.requestedBlocks := by
        intro hcon
        exact hpne ((hinv (p, st) hps h hcon).2 pr hpm hh)
      refine ⟨hglob h hglobpre hnst, ?_⟩
      intro qr hqr hq
      rcases mem_setPeerState _ _ _ _ hqr with hqe | ⟨hqm, hqne⟩
      · subst hqe
        have hstm : h ∈ st.requestedBlocks := hsub hq
        exact ((hinv pr hpm h hh).2 (p, st) hps hstm).symm ▸ rfl
      · exact (hinv pr hpm h hh).2 qr hqm hq

set_option maxHeartbeats 3200000 in
theorem handleBlockMsg_invariant (env : Env) (pbr : ProcessBlockOutcome) (now : Nat)
    (p : PeerId) (bmsg : BlockMsgData) (s : SMState)
    (hinv : ReqBlocksInvariant s)
    (hhf : s.headersFirstMode = false) (hreg : env.regressionNet = false) :
    ReqBlocksInvariant (handleBlockMsg env pbr now p bmsg s).1 := by
  cases hst : getPeerState s.peerStates p with
  | none => simpa [handleBlockMsg, hst] using hinv
  | some st =>
    by_cases hm : bmsg.hash ∈ st.requestedBlocks
    · have hkey := ReqBlocksInvOn_erase s.peerStates s.requestedBlocks p st bmsg.hash
        hst hinv hm
      by_cases hcsn : s.utreexoCSN = true
      · simpa [handleBlockMsg, hst, hm, hcsn] using hinv
      · by_cases hsp : s.syncPeer = some p <;>
          cases herrK : pbr.errKind with
        | none =>
          cases horph : pbr.isOrphan <;>
            cases hloc : env.latestBlockLocator <;>
              simp [handleBlockMsg, hst, hm, hcsn, hhf, herrK, horph, hloc, hsp] <;>
                exact hkey
        | some k =>
          cases k <;>
            simp [handleBlockMsg, hst, hm, hcsn, hhf, herrK, hsp] <;>
              exact hkey
    · simpa [handleBlockMsg, hst, hm, hreg] using hinv

theorem syncPeerScan_proj (env : Env) (sw : Bool) (rh : Int) :
    ∀ ps : List (PeerId × PeerSyncState),
      ((syncPeerScan env sw rh ps).1).map (fun pr => (pr.1, pr.2.requestedBlocks)) =
        ps.map (fun pr => (pr.1, pr.2.requestedBlocks))
  | [] => rfl
  | (p, st) :: rest => by
    simp only [syncPeerScan]
    repeat' split
    all_goals simp [syncPeerScan_proj env sw rh rest]

theorem startSync_selection (env : Env) (now choice : Nat) (s : SMState) (sp : PeerId)
    (hsp0 : s.syncPeer = none) (hvm : s.utreexoRootVerifyMode = false)
    (hsel : (startSync env now choice s).1.syncPeer = some sp) :
    (startSync env now choice s).1.requestedBlocks = ∅ ∧
    (startSync env now choice s).1.peerStates.map
        (fun pr => (pr.1, pr.2.requestedBlocks)) =
      s.peerStates.map (fun pr => (pr.1, pr.2.requestedBlocks)) := by
  simp only [startSync, hsp0, Option.isSome_none, Bool.false_eq_true, if_false, hvm]
    at hsel ⊢
  cases hsw : env.segwitActive with
  | none =>
    simp only [hsw] at hsel
    simp [hsp0] at hsel
  | some sw =>
    simp only [hsw] at hsel ⊢
    rcases hscan : syncPeerScan env sw env.bestHeight s.peerStates with ⟨ps', his, eqs⟩
    have hproj := syncPeerScan_proj env sw env.bestHeight s.peerStates
    rw [hscan] at hproj
    simp only [hscan] at hsel ⊢
    cases hpick : pickBestPeer choice his eqs with
    | none =>
      simp only [hpick] at hsel
      simp [hsp0] at hsel
    | some bp =>
      simp only [hpick] at hsel ⊢
      cases hloc : env.latestBlockLocator with
      | none =>
        simp only [hloc] at hsel
        simp [hsp0] at hsel
      | some locator =>
        simp only [hloc] at hsel ⊢
        cases hcp : s.nextCheckpoint with
        | none =>
          cases hc : s.utreexoCSN <;> simp [hcp, hc, hproj]
        | some cp =>
          by_cases hh : env.bestHeight < cp.height ∧ env.regressionNet = false
          · simp [hcp, hh, hproj]
          · cases hc : s.utreexoCSN <;> simp [hcp, hh, hc, hproj]

/-- C1 counterexample: starting from a fresh manager, peer 1 becomes sync
peer, an inv from peer 2 registers hash 42 in both the global and peer 2's
`requestedBlocks`, and peer 1's departure makes `startSync` select peer 2 as
the new sync peer while clearing the global map — hash 42 remains only in
peer 2's per-peer set, violating the claimed invariant right after a
message handler (and right after `startSync` selected a new sync peer). -/
theorem reqBlocksInvariant_counterexample :
    ReqBlocksInvariant c1State3 ∧
    c1State4.syncPeer = some 2 ∧
    ¬ ReqBlocksInvariant c1State4 := by
  refine ⟨by decide, by decide, by decide⟩

/-- C1 (amended): the notfound handler preserves the per-peer/global
coupling invariant, and so does the block handler outside headers-first
mode on non-regression networks; but when `startSync` selects a new sync
peer it empties the global `requestedBlocks` while leaving every per-peer
set untouched, so the invariant fails whenever some per-peer set was
non-empty at that point. -/
theorem reqBlocksInvariant_spec :
    (∀ (p : PeerId) (invList : List InvVect) (s : SMState),
      ReqBlocksInvariant s →
      ReqBlocksInvariant (handleNotFoundMsg p invList s).1) ∧
    (∀ (env : Env) (pbr : ProcessBlockOutcome) (now : Nat) (p : PeerId)
        (bmsg : BlockMsgData) (s : SMState),
      ReqBlocksInvariant s → s.headersFirstMode = false → env.regressionNet = false →
      ReqBlocksInvariant (handleBlockMsg env pbr now p bmsg s).1) ∧
    (∀ (env : Env) (now choice : Nat) (s : SMState) (sp : PeerId),
      s.syncPeer = none → s.utreexoRootVerifyMode = false →
      (startSync env now choice s).1.syncPeer = some sp →
      (startSync env now choice s).1.requestedBlocks = ∅ ∧
      (startSync env now choice s).1.peerStates.map
          (fun pr => (pr.1, pr.2.requestedBlocks)) =
        s.peerStates.map (fun pr => (pr.1, pr.2.requestedBlocks))) :=
  ⟨handleNotFoundMsg_invariant,
   fun env pbr now p bmsg s hinv hhf hreg =>
     handleBlockMsg_invariant env pbr now p bmsg s hinv hhf hreg,
   fun env now choice s sp hsp0 hvm hsel =>
     startSync_selection env now choice s sp hsp0 hvm hsel⟩

theorem reqBlocksInvariant_spec_witness :
    ReqBlocksInvariant (handleNotFoundMsg 2 [⟨.block, 42⟩] c1State3).1 ∧
    ((startSync testEnv 0 0 { c1State3 with syncPeer := none }).1.requestedBlocks = ∅ ∧
      (startSync testEnv 0 0 { c1State3 with syncPeer := none }).1.peerStates.map
          (fun pr => (pr.1, pr.2.requestedBlocks)) =
        ({ c1State3 with syncPeer := none } : SMState).peerStates.map
          (fun pr => (pr.1, pr.2.requestedBlocks))) :=
  ⟨reqBlocksInvariant_spec.1 2 [⟨.block, 42⟩] c1State3 (by decide),
   reqBlocksInvariant_spec.2.2 testEnv 0 0 { c1State3 with syncPeer := none } 1
     (by decide) (by decide) (by decide)⟩

end Netsync
